import Mathlib

/-!
The rendering and input bridge of microui (`bind.go`).

A shallow embedding of `src/bind.go`:

* `iconImage`      : the lazily filled icon cache (`iconMap`),
* `updateInput`    : the per-frame translation of an input sample into event-sink calls,
* `Context.Draw`   : the per-frame interpretation of the command list.

Conventions of the embedding.

* Go `int` is the 64 bit two's complement integer; it is modelled by `Int`, a field of
  type `int` holds an integer from `-2^63` to `2^63 - 1`, and every arithmetic operation
  of the source is followed by `wrapInt`.
* A `float32` or `float64` obtained by converting an `int` is integer-valued; it is
  modelled by that integer (`float32OfInt`, `float64OfInt`). The wheel deltas are
  `Float64` values, which include the infinities and NaN.
* The host engine is recorded, not executed: a call of a drawing primitive
  (`vector.DrawFilledRect`, `text.Draw`, `Image.DrawImage`) appends a `DrawCall` to a log, a
  call of an event-sink method (`inputMouseMove`, ...) appends an `Event` to a log, and
  `screen.SubImage(r)` is the symbolic target `Target.subImage r`.
* Constants declared outside `bind.go` (`CommandRect`, ..., `IconCheck`, ...) are the fields
  of the parameter `Consts`; the embedded asset store `iconFS` together with `image.Decode`
  is the parameter `assets`.
* A Go `panic` is the result `none`.
-/

namespace Microui

/-! ## Machine integers and the `image` package -/

/-- Two's complement wrap-around of a 64 bit Go `int`. -/
def wrapInt (x : Int) : Int :=
  (x + 9223372036854775808) % 18446744073709551616 - 9223372036854775808

/-- Auxiliary of `bitLength`, by recursion on the fuel. -/
def bitLengthAux : Nat → Nat → Nat
  | 0, _ => 0
  | fuel + 1, a => if a = 0 then 0 else bitLengthAux fuel (a / 2) + 1

/-- The number of binary digits of `a`. -/
def bitLength (a : Nat) : Nat := bitLengthAux a a

/-- The integer `n` rounded to `p` significant binary digits, to nearest and ties to
even: the value of a binary floating-point number of precision `p` (and sufficient
exponent range) converted from `n`. -/
def roundToPrecision (p : Nat) (n : Int) : Int :=
  let a := n.natAbs
  if a < 2 ^ p then n
  else
    let sh := bitLength a - p
    let q := a / 2 ^ sh
    let r := a % 2 ^ sh
    let half := 2 ^ (sh - 1)
    let q1 := if half < r ∨ (r = half ∧ q % 2 = 1) then q + 1 else q
    if n < 0 then -((q1 * 2 ^ sh : Nat) : Int) else ((q1 * 2 ^ sh : Nat) : Int)

/-- Go conversion `float32(n)` of an `int`: 24 significant binary digits. -/
def float32OfInt (n : Int) : Int := roundToPrecision 24 n

/-- Go conversion `float64(n)` of an `int`: 53 significant binary digits. -/
def float64OfInt (n : Int) : Int := roundToPrecision 53 n

/-- Go `image.Point`. -/
structure Point where
  X : Int
  Y : Int
deriving DecidableEq, Repr

/-- Go `image.Rectangle`. -/
structure Rectangle where
  Min : Point
  Max : Point
deriving DecidableEq, Repr

/-- Go `image.Rectangle.Dx`: `r.Max.X - r.Min.X`. -/
def Rectangle.Dx (r : Rectangle) : Int := wrapInt (r.Max.X - r.Min.X)

/-- Go `image.Rectangle.Dy`: `r.Max.Y - r.Min.Y`. -/
def Rectangle.Dy (r : Rectangle) : Int := wrapInt (r.Max.Y - r.Min.Y)

/-- Go `image.Rect`: the rectangle with the given corners, the coordinates of an axis
swapped when the first exceeds the second. -/
def imageRect (x0 y0 x1 y1 : Int) : Rectangle :=
  let (x0, x1) := if x0 > x1 then (x1, x0) else (x0, x1)
  let (y0, y1) := if y0 > y1 then (y1, y0) else (y0, y1)
  ⟨⟨x0, y0⟩, ⟨x1, y1⟩⟩

/-- Go `color.Color`, by its four components. -/
structure Color where
  R : Nat
  G : Nat
  B : Nat
  A : Nat
deriving DecidableEq, Repr

/-! ## Engine images -/

/-- An `*ebiten.Image` handle: `id` is the identity of the pointer, `bounds` is what
`Bounds()` returns. -/
structure Image where
  id : Nat
  bounds : Rectangle
deriving DecidableEq, Repr

/-- The drawing target of `Draw`: the surface itself or `screen.SubImage(r)`. -/
inductive Target where
  | screen
  | subImage (r : Rectangle)
deriving DecidableEq, Repr

/-- A call of a drawing primitive of the host engine, with its arguments. The numeric
arguments are the `float32` (`filledRect`) and `float64` (`text`, `image`) values the
engine receives; each is converted from an `int`, hence integer-valued, and is recorded
as that integer. -/
inductive DrawCall where
  | filledRect (dst : Target) (x y w h : Int) (clr : Color) (antialias : Bool)
  | text (dst : Target) (str : String) (x y : Int) (clr : Color)
  | image (dst : Target) (img : Image) (x y : Int) (clr : Color)
deriving DecidableEq, Repr

/-! ## Constants and commands declared outside `bind.go` -/

/-- The command kind constants and icon constants used by `bind.go`. -/
structure Consts where
  CommandRect : Int
  CommandText : Int
  CommandIcon : Int
  CommandClip : Int
  IconCheck : Int
  IconClose : Int
  IconCollapsed : Int
  IconExpanded : Int
deriving DecidableEq, Repr

/-- The four command kinds handled by `Draw` are pairwise different constants. -/
def Consts.kindsDistinct (K : Consts) : Prop :=
  [K.CommandRect, K.CommandText, K.CommandIcon, K.CommandClip].Nodup

instance (K : Consts) : Decidable K.kindsDistinct := by
  unfold Consts.kindsDistinct; infer_instance

/-- Payload `cmd.rect`. -/
structure rectCommand where
  rect : Rectangle
  color : Color
deriving DecidableEq, Repr

/-- Payload `cmd.text`. -/
structure textCommand where
  pos : Point
  color : Color
  str : String
deriving DecidableEq, Repr

/-- Payload `cmd.icon`. -/
structure iconCommand where
  rect : Rectangle
  icon : Int
  color : Color
deriving DecidableEq, Repr

/-- Payload `cmd.clip`. -/
structure clipCommand where
  rect : Rectangle
deriving DecidableEq, Repr

/-- A draw command: the tag `typ` and one payload field per kind, of which `Draw` reads
the one selected by the tag. -/
structure command where
  typ : Int
  rect : rectCommand
  text : textCommand
  icon : iconCommand
  clip : clipCommand
deriving DecidableEq, Repr

/-- The receiver of `Draw`, reduced to the field `Draw` reads. -/
structure Context where
  commandList : List command
deriving DecidableEq, Repr

/-! ## Icon cache -/

/-- The global `iconMap`, with the log of the decodes performed so far (the icon
identifier of each `image.Decode` call, oldest first). -/
structure IconStore where
  iconMap : List (Int × Image)
  decoded : List Int
deriving DecidableEq, Repr

/-- The store of a fresh process: `iconMap = map[Icon]*ebiten.Image{}`. -/
def IconStore.empty : IconStore := ⟨[], []⟩

/-- Go map read `m[k]` with the comma-ok form. -/
def mapGet (m : List (Int × Image)) (k : Int) : Option Image :=
  match m with
  | [] => none
  | (k', v) :: rest => if k' = k then some v else mapGet rest k

/-- Go map write `m[k] = v`. -/
def mapSet (m : List (Int × Image)) (k : Int) (v : Image) : List (Int × Image) :=
  match m with
  | [] => [(k, v)]
  | (k', v') :: rest => if k' = k then (k, v) :: rest else (k', v') :: mapSet rest k v

/-- The `switch icon` of `iconImage`: the asset name, `none` for the `default` branch. -/
def iconName (K : Consts) (icon : Int) : Option String :=
  if icon = K.IconCheck then some "check.png"
  else if icon = K.IconClose then some "close.png"
  else if icon = K.IconCollapsed then some "collapsed.png"
  else if icon = K.IconExpanded then some "expanded.png"
  else none

/-- `iconImage`. `assets name` is the size of the bitmap that `iconFS.ReadFile` and
`image.Decode` produce for `"icon/" + name`, or `none` when either returns an error;
`ebiten.NewImageFromImage` returns a new handle of that size with origin `(0, 0)`.
The result is `none` on panic, else the returned pointer (`none` for `nil`) and the
store after the call. -/
def iconImage (K : Consts) (assets : String → Option (Int × Int)) (st : IconStore)
    (icon : Int) : Option (Option Image × IconStore) :=
  match mapGet st.iconMap icon with
  | some img => some (some img, st)
  | none =>
    match iconName K icon with
    | none => some (none, st)
    | some name =>
      match assets name with
      | none => none
      | some (w, h) =>
        let img : Image := ⟨st.decoded.length, ⟨⟨0, 0⟩, ⟨w, h⟩⟩⟩
        let st1 : IconStore := ⟨mapSet st.iconMap icon img, st.decoded ++ [icon]⟩
        some (mapGet st1.iconMap icon, st1)

/-- A sequence of `iconImage` calls, the results dropped: the store after them. -/
def iconImages (K : Consts) (assets : String → Option (Int × Int)) :
    IconStore → List Int → Option IconStore
  | st, [] => some st
  | st, icon :: rest =>
    match iconImage K assets st icon with
    | none => none
    | some (_, st1) => iconImages K assets st1 rest

/-- A store that `iconImage` calls produce from the store of a fresh process. -/
def Reachable (K : Consts) (assets : String → Option (Int × Int)) (st : IconStore) : Prop :=
  ∃ icons, iconImages K assets IconStore.empty icons = some st

/-- The four icon assets read by `iconImage` are present and decode. -/
def assetsOK (assets : String → Option (Int × Int)) : Prop :=
  ∀ name ∈ ["check.png", "close.png", "collapsed.png", "expanded.png"],
    (assets name).isSome = true

/-! ## Command renderer -/

/-- The loop state of `Draw`: the variable `target`, the draw calls issued so far and the
icon store. -/
structure DrawState where
  target : Target
  calls : List DrawCall
  store : IconStore
deriving DecidableEq, Repr

/-- The new target of `case CommandClip` for `cmd.clip.rect = rect`:
`screen.SubImage(image.Rect(...))`. -/
def clipTarget (screen : Image) (rect : Rectangle) : Target :=
  Target.subImage (imageRect
    rect.Min.X
    rect.Min.Y
    (min rect.Max.X screen.bounds.Dx)
    (min rect.Max.Y screen.bounds.Dy))

/-- The coordinate `x` (and `y`) of `case CommandIcon`:
`lo + (size - imgSize) / 2` in Go arithmetic (`/` truncates toward zero). -/
def iconOffset (lo size imgSize : Int) : Int :=
  wrapInt (lo + Int.tdiv (wrapInt (size - imgSize)) 2)

/-- One iteration of the loop of `Draw`: the `switch cmd.typ`. -/
def drawCommand (K : Consts) (assets : String → Option (Int × Int)) (screen : Image)
    (s : DrawState) (cmd : command) : Option DrawState :=
  if cmd.typ = K.CommandRect then
    some ⟨s.target, s.calls ++ [DrawCall.filledRect s.target
      (float32OfInt cmd.rect.rect.Min.X)
      (float32OfInt cmd.rect.rect.Min.Y)
      (float32OfInt cmd.rect.rect.Dx)
      (float32OfInt cmd.rect.rect.Dy)
      cmd.rect.color false], s.store⟩
  else if cmd.typ = K.CommandText then
    some ⟨s.target, s.calls ++ [DrawCall.text s.target cmd.text.str
      (float64OfInt cmd.text.pos.X) (float64OfInt cmd.text.pos.Y) cmd.text.color],
      s.store⟩
  else if cmd.typ = K.CommandIcon then
    match iconImage K assets s.store cmd.icon.icon with
    | none => none
    | some (none, st) => some ⟨s.target, s.calls, st⟩
    | some (some img, st) =>
      let x := iconOffset cmd.icon.rect.Min.X cmd.icon.rect.Dx img.bounds.Dx
      let y := iconOffset cmd.icon.rect.Min.Y cmd.icon.rect.Dy img.bounds.Dy
      some ⟨s.target, s.calls ++ [DrawCall.image Target.screen img
        (float64OfInt x) (float64OfInt y) cmd.icon.color], st⟩
  else if cmd.typ = K.CommandClip then
    some ⟨clipTarget screen cmd.clip.rect, s.calls, s.store⟩
  else
    some s

/-- The loop `for _, cmd := range c.commandList` of `Draw`, from loop state `s`. -/
def drawLoop (K : Consts) (assets : String → Option (Int × Int)) (screen : Image) :
    DrawState → List command → Option DrawState
  | s, [] => some s
  | s, cmd :: rest =>
    match drawCommand K assets screen s cmd with
    | none => none
    | some s1 => drawLoop K assets screen s1 rest

/-- `Context.Draw`, run with icon store `st`: `target := screen`, then the loop. -/
def Context.Draw (K : Consts) (assets : String → Option (Int × Int)) (c : Context)
    (screen : Image) (st : IconStore) : Option DrawState :=
  drawLoop K assets screen ⟨Target.screen, [], st⟩ c.commandList

/-! ## Input translator -/

/-- The `ebiten.MouseButton` values. -/
inductive MouseButton where
  | Left
  | Right
  | Middle
deriving DecidableEq, Repr

/-- The `ebiten.Key` values: the five read by `updateInput`, and the others by code. -/
inductive Key where
  | Alt
  | Backspace
  | Control
  | Enter
  | Shift
  | other (code : Nat)
deriving DecidableEq, Repr

/-- A Go `float64`: a finite value, by the rational number it denotes (the two zeros are
not distinguished), an infinity or NaN. -/
inductive Float64 where
  | finite (q : Rat)
  | posInf
  | negInf
  | nan
deriving DecidableEq

/-- What `bind.go` takes from the platform's floating-point arithmetic: `round x` is the
`float64` that an operation with exact result `x` evaluates to; `outOfRange f` is the
implementation-dependent result of `int(f)` when `int` cannot represent `f` (reduced into
the range of `int` by `wrapInt` where it is used). -/
structure FloatEnv where
  round : Rat → Float64
  outOfRange : Float64 → Int

/-- Go comparison `f != 0`. -/
def Float64.nonZero : Float64 → Bool
  | Float64.finite q => decide (q ≠ 0)
  | _ => true

/-- Go expression `f * -30`. -/
def mulNeg30 (F : FloatEnv) : Float64 → Float64
  | Float64.finite q => F.round (q * -30)
  | Float64.posInf => Float64.negInf
  | Float64.negInf => Float64.posInf
  | Float64.nan => Float64.nan

/-- What the host engine reports during one frame. -/
structure InputSample where
  cursorX : Int
  cursorY : Int
  wheelX : Float64
  wheelY : Float64
  chars : List Char
  mouseJustPressed : MouseButton → Bool
  mouseJustReleased : MouseButton → Bool
  keyJustPressed : Key → Bool
  keyJustReleased : Key → Bool

/-- A call of an event-sink method of the GUI engine. -/
inductive Event where
  | mouseMove (x y : Int)
  | scroll (x y : Int)
  | text (chars : List Char)
  | mouseDown (x y : Int) (button : MouseButton)
  | mouseUp (x y : Int) (button : MouseButton)
  | keyDown (key : Key)
  | keyUp (key : Key)
deriving DecidableEq, Repr

/-- Go conversion `int(f)` of a `float64`: the fraction is discarded (truncation toward
zero) when the result is in the range of `int`; otherwise, and for an infinity or NaN,
the result is implementation-dependent. -/
def floatToInt (F : FloatEnv) (f : Float64) : Int :=
  match f with
  | Float64.finite q =>
    let t := Int.tdiv q.num q.den
    if -9223372036854775808 ≤ t ∧ t < 9223372036854775808 then t
    else wrapInt (F.outOfRange f)
  | _ => wrapInt (F.outOfRange f)

/-- The body of the loop over the five keys in `updateInput`. -/
def keyStep (s : InputSample) (evs : List Event) (k : Key) : List Event :=
  if s.keyJustPressed k then evs ++ [Event.keyDown k]
  else if s.keyJustReleased k then evs ++ [Event.keyUp k]
  else evs

/-- `Context.updateInput`: the event-sink calls of one frame, in call order. -/
def updateInput (F : FloatEnv) (s : InputSample) : List Event :=
  let cx := s.cursorX
  let cy := s.cursorY
  let evs := [Event.mouseMove cx cy]
  let evs :=
    if s.wheelX.nonZero ∨ s.wheelY.nonZero then
      evs ++ [Event.scroll (floatToInt F (mulNeg30 F s.wheelX))
        (floatToInt F (mulNeg30 F s.wheelY))]
    else evs
  let chars := s.chars
  let evs := if chars.length > 0 then evs ++ [Event.text chars] else evs
  let evs :=
    if s.mouseJustPressed MouseButton.Left then
      evs ++ [Event.mouseDown cx cy MouseButton.Left]
    else if s.mouseJustReleased MouseButton.Left then
      evs ++ [Event.mouseUp cx cy MouseButton.Left]
    else evs
  let evs :=
    if s.mouseJustPressed MouseButton.Right then
      evs ++ [Event.mouseDown cx cy MouseButton.Right]
    else if s.mouseJustReleased MouseButton.Right then
      evs ++ [Event.mouseUp cx cy MouseButton.Right]
    else evs
  [Key.Alt, Key.Backspace, Key.Control, Key.Enter, Key.Shift].foldl (keyStep s) evs

/-! ## Vocabulary of the specification -/

/-- The rectangle of the last Clip command of a command list, if it has one. -/
def lastClip (K : Consts) (cmds : List command) : Option Rectangle :=
  ((cmds.filter (fun c => decide (c.typ = K.CommandClip))).getLast?).map (fun c => c.clip.rect)

/-- The current drawing target as the specification describes it: the full surface when no
Clip command came before, else the sub-region of the most recent one. -/
def targetOf (screen : Image) : Option Rectangle → Target
  | none => Target.screen
  | some rect => clipTarget screen rect

/-- Every key of the icon map is an identifier of the closed enumeration. -/
def IconStore.keysKnown (K : Consts) (st : IconStore) : Prop :=
  ∀ p ∈ st.iconMap, (iconName K p.1).isSome = true

/-- The Clip claim as the specification words it, for the rectangle `r` requested for the
command rectangle `rect` on `screen`: max edges clamped by the bounds of the surface, min
edges passed through. -/
def clipAsSpecified (screen : Image) (rect r : Rectangle) : Prop :=
  r.Max.X = min rect.Max.X screen.bounds.Max.X ∧
  r.Max.Y = min rect.Max.Y screen.bounds.Max.Y ∧
  r.Min.X = rect.Min.X ∧ r.Min.Y = rect.Min.Y

instance (screen : Image) (rect r : Rectangle) : Decidable (clipAsSpecified screen rect r) := by
  unfold clipAsSpecified; infer_instance

/-- A command that the specification lets emit a draw call: a Rect command, a Text command,
or an Icon command whose identifier is in the closed enumeration. -/
def emitsCall (K : Consts) (cmd : command) : Bool :=
  decide (cmd.typ = K.CommandRect) || decide (cmd.typ = K.CommandText) ||
    (decide (cmd.typ = K.CommandIcon) && (iconName K cmd.icon.icon).isSome)

/-- The draw call `call` is the one of `cmd`: it carries the colour of the command; for a
Rect command it has position `(float32(Min.X), float32(Min.Y))`, size
`(float32(Dx), float32(Dy))` and anti-aliasing off; for a Text command it has the string
of the command and the position `(float64(pos.X), float64(pos.Y))`; for an Icon command it
draws a bitmap on the full surface. -/
def callOf (K : Consts) (cmd : command) (call : DrawCall) : Prop :=
  (cmd.typ = K.CommandRect →
    ∃ dst, call = DrawCall.filledRect dst
      (float32OfInt cmd.rect.rect.Min.X) (float32OfInt cmd.rect.rect.Min.Y)
      (float32OfInt cmd.rect.rect.Dx) (float32OfInt cmd.rect.rect.Dy)
      cmd.rect.color false) ∧
  (cmd.typ = K.CommandText →
    ∃ dst, call = DrawCall.text dst cmd.text.str
      (float64OfInt cmd.text.pos.X) (float64OfInt cmd.text.pos.Y) cmd.text.color) ∧
  (cmd.typ = K.CommandIcon →
    ∃ img x y, call = DrawCall.image Target.screen img x y cmd.icon.color)

/-- The Rect part of the draw-call claim as the specification words it: the call of a Rect
command has position `(min.X, min.Y)`, size `(max.X - min.X, max.Y - min.Y)`, the colour
of the command and anti-aliasing off. -/
def rectCallAsSpecified (cmd : command) (call : DrawCall) : Prop :=
  ∃ dst, call = DrawCall.filledRect dst cmd.rect.rect.Min.X cmd.rect.rect.Min.Y
    (cmd.rect.rect.Max.X - cmd.rect.rect.Min.X) (cmd.rect.rect.Max.Y - cmd.rect.rect.Min.Y)
    cmd.rect.color false

/-- The centering claim as the specification words it, on one axis: a bitmap of size `w`
drawn at `x` in the interval from `lo` to `hi` has `x = lo + ((hi - lo) - w) / 2`, the
division truncating toward zero, and its two margins differ by at most 1. -/
def centredAsSpecified (lo hi w x : Int) : Prop :=
  x = lo + Int.tdiv ((hi - lo) - w) 2 ∧
  -1 ≤ (x - lo) - (hi - (x + w)) ∧ (x - lo) - (hi - (x + w)) ≤ 1

instance (lo hi w x : Int) : Decidable (centredAsSpecified lo hi w x) := by
  unfold centredAsSpecified; infer_instance

/-- A coordinate of magnitude at most `2^50`, for which the arithmetic of
`case CommandIcon` neither overflows nor is rounded by `float64(...)`. -/
def coordOK (v : Int) : Prop :=
  -1125899906842624 ≤ v ∧ v ≤ 1125899906842624

instance (v : Int) : Decidable (coordOK v) := by
  unfold coordOK; infer_instance

/-- A coordinate of magnitude at most `2^23`, for which the arguments of
`case CommandRect` are not rounded by `float32(...)`. -/
def coord32OK (v : Int) : Prop :=
  -8388608 ≤ v ∧ v ≤ 8388608

instance (v : Int) : Decidable (coord32OK v) := by
  unfold coord32OK; infer_instance

/-- The events about pointer button `b`. -/
def isButtonEvent (b : MouseButton) : Event → Bool
  | Event.mouseDown _ _ b1 => decide (b1 = b)
  | Event.mouseUp _ _ b1 => decide (b1 = b)
  | _ => false

/-- The events about key `k`. -/
def isKeyEvent (k : Key) : Event → Bool
  | Event.keyDown k1 => decide (k1 = k)
  | Event.keyUp k1 => decide (k1 = k)
  | _ => false

/-- The scroll events. -/
def isScroll : Event → Bool
  | Event.scroll _ _ => true
  | _ => false

/-- The text-input events. -/
def isText : Event → Bool
  | Event.text _ => true
  | _ => false

/-- The edge-triggering rule of the specification for button `b` in one frame: a down event
with the pointer coordinates if just-pressed, else an up event if just-released, else
nothing. -/
def buttonEvents (s : InputSample) (b : MouseButton) : List Event :=
  if s.mouseJustPressed b then [Event.mouseDown s.cursorX s.cursorY b]
  else if s.mouseJustReleased b then [Event.mouseUp s.cursorX s.cursorY b]
  else []

/-- The edge-triggering rule of the specification for key `k` in one frame. -/
def keyEvents (s : InputSample) (k : Key) : List Event :=
  if s.keyJustPressed k then [Event.keyDown k]
  else if s.keyJustReleased k then [Event.keyUp k]
  else []

/-- The scroll rule for one frame: one scroll event with `(int(wx * -30), int(wy * -30))`
when `wx != 0` or `wy != 0`, else nothing. -/
def scrollEvents (F : FloatEnv) (s : InputSample) : List Event :=
  if s.wheelX.nonZero ∨ s.wheelY.nonZero then
    [Event.scroll (floatToInt F (mulNeg30 F s.wheelX)) (floatToInt F (mulNeg30 F s.wheelY))]
  else []

/-- The text-input rule of the specification for one frame. -/
def textEvents (s : InputSample) : List Event :=
  if s.chars = [] then [] else [Event.text s.chars]

/-- The ten places of the fixed per-frame event order, and one for every other event. -/
inductive Slot where
  | pointerMove
  | scroll
  | textInput
  | leftButton
  | rightButton
  | alt
  | backspace
  | control
  | enter
  | shift
  | unlisted
deriving DecidableEq, Repr

/-- The place of an event in the per-frame order. -/
def Event.slot : Event → Slot
  | Event.mouseMove _ _ => Slot.pointerMove
  | Event.scroll _ _ => Slot.scroll
  | Event.text _ => Slot.textInput
  | Event.mouseDown _ _ MouseButton.Left => Slot.leftButton
  | Event.mouseUp _ _ MouseButton.Left => Slot.leftButton
  | Event.mouseDown _ _ MouseButton.Right => Slot.rightButton
  | Event.mouseUp _ _ MouseButton.Right => Slot.rightButton
  | Event.keyDown Key.Alt => Slot.alt
  | Event.keyUp Key.Alt => Slot.alt
  | Event.keyDown Key.Backspace => Slot.backspace
  | Event.keyUp Key.Backspace => Slot.backspace
  | Event.keyDown Key.Control => Slot.control
  | Event.keyUp Key.Control => Slot.control
  | Event.keyDown Key.Enter => Slot.enter
  | Event.keyUp Key.Enter => Slot.enter
  | Event.keyDown Key.Shift => Slot.shift
  | Event.keyUp Key.Shift => Slot.shift
  | _ => Slot.unlisted

/-- The fixed per-frame event order. -/
def slotOrder : List Slot :=
  [Slot.pointerMove, Slot.scroll, Slot.textInput, Slot.leftButton, Slot.rightButton,
   Slot.alt, Slot.backspace, Slot.control, Slot.enter, Slot.shift]

/-! ## Sample data -/

/-- A steady-state frame: pointer at `(x, y)`, nothing else reported. -/
def idleFrame (x y : Int) : InputSample :=
  ⟨x, y, Float64.finite 0, Float64.finite 0, [], fun _ => false, fun _ => false, fun _ => false, fun _ => false⟩

/-- A frame in which the left button is reported just-pressed. -/
def pressFrame (x y : Int) : InputSample :=
  ⟨x, y, Float64.finite 0, Float64.finite 0, [], fun b => decide (b = MouseButton.Left), fun _ => false,
    fun _ => false, fun _ => false⟩

/-- A frame in which the left button is reported just-released. -/
def releaseFrame (x y : Int) : InputSample :=
  ⟨x, y, Float64.finite 0, Float64.finite 0, [], fun _ => false, fun b => decide (b = MouseButton.Left),
    fun _ => false, fun _ => false⟩

/-- A sample floating-point environment: the products used with it are exactly
representable and are returned as they are; `int(f)` of an unrepresentable `f` is the
smallest `int`, as on amd64. -/
def sampleFloat : FloatEnv := ⟨Float64.finite, fun _ => -9223372036854775808⟩

/-- A frame with wheel delta `(1, -2)`. -/
def wheelFrame : InputSample :=
  ⟨3, 4, Float64.finite 1, Float64.finite (-2), [],
    fun _ => false, fun _ => false, fun _ => false, fun _ => false⟩

/-- A frame with wheel delta `(0.05, -0.05)`. -/
def fractionFrame : InputSample :=
  ⟨3, 4, Float64.finite (1 / 20), Float64.finite (-1 / 20), [],
    fun _ => false, fun _ => false, fun _ => false, fun _ => false⟩

/-- A frame with the integer-valued wheel delta `(10^19, -10^19)`. -/
def hugeWheelFrame : InputSample :=
  ⟨3, 4, Float64.finite ((10000000000000000000 : Int) : Rat),
    Float64.finite ((-10000000000000000000 : Int) : Rat), [],
    fun _ => false, fun _ => false, fun _ => false, fun _ => false⟩


/-- A sample assignment of the constants. -/
def sampleConsts : Consts := ⟨3, 4, 5, 2, 2, 1, 3, 4⟩

/-- A sample asset store: every icon decodes to a 16 x 16 bitmap. -/
def sampleAssets : String → Option (Int × Int) := fun _ => some (16, 16)

/-- A sample 200 x 100 surface with its origin at `(0, 0)`. -/
def sampleScreen : Image := ⟨1000, ⟨⟨0, 0⟩, ⟨200, 100⟩⟩⟩

/-- A sample 100 x 50 surface whose bounds start at `(10, 10)`. -/
def offsetScreen : Image := ⟨1001, ⟨⟨10, 10⟩, ⟨110, 60⟩⟩⟩

/-- The zero value of `command`. -/
def zeroCommand : command :=
  ⟨0, ⟨⟨⟨0, 0⟩, ⟨0, 0⟩⟩, ⟨0, 0, 0, 0⟩⟩, ⟨⟨0, 0⟩, ⟨0, 0, 0, 0⟩, ""⟩,
    ⟨⟨⟨0, 0⟩, ⟨0, 0⟩⟩, 0, ⟨0, 0, 0, 0⟩⟩, ⟨⟨⟨0, 0⟩, ⟨0, 0⟩⟩⟩⟩

/-- A Rect command. -/
def rectCmd (K : Consts) (r : Rectangle) (c : Color) : command :=
  ⟨K.CommandRect, ⟨r, c⟩, zeroCommand.text, zeroCommand.icon, zeroCommand.clip⟩

/-- A Text command. -/
def textCmd (K : Consts) (str : String) (pos : Point) (c : Color) : command :=
  ⟨K.CommandText, zeroCommand.rect, ⟨pos, c, str⟩, zeroCommand.icon, zeroCommand.clip⟩

/-- An Icon command. -/
def iconCmd (K : Consts) (icon : Int) (r : Rectangle) (c : Color) : command :=
  ⟨K.CommandIcon, zeroCommand.rect, zeroCommand.text, ⟨r, icon, c⟩, zeroCommand.clip⟩

/-- A Clip command. -/
def clipCmd (K : Consts) (r : Rectangle) : command :=
  ⟨K.CommandClip, zeroCommand.rect, zeroCommand.text, zeroCommand.icon, ⟨r⟩⟩

/-- Opaque red. -/
def red : Color := ⟨255, 0, 0, 255⟩

/-- Opaque black. -/
def black : Color := ⟨0, 0, 0, 255⟩

/-! ## Auxiliary lemmas -/

theorem wrapInt_of_small (x : Int) (h1 : -9223372036854775808 ≤ x)
    (h2 : x < 9223372036854775808) : wrapInt x = x := by
  unfold wrapInt; omega

theorem tdiv_two_spec (a : Int) :
    (0 ≤ a → Int.tdiv a 2 = a / 2) ∧ (a < 0 → Int.tdiv a 2 = -((-a) / 2)) := by
  constructor
  · intro h; exact Int.tdiv_eq_ediv h (by decide)
  · intro h
    have h1 : Int.tdiv (-(-a)) 2 = -(Int.tdiv (-a) 2) := Int.neg_tdiv (-a) 2
    rw [neg_neg] at h1
    rw [h1, Int.tdiv_eq_ediv (by omega) (by decide)]

theorem mapGet_mapSet_self (m : List (Int × Image)) (k : Int) (v : Image) :
    mapGet (mapSet m k v) k = some v := by
  induction m with
  | nil => simp [mapSet, mapGet]
  | cons p rest ih =>
    obtain ⟨k1, v1⟩ := p
    by_cases h : k1 = k
    · simp [mapSet, mapGet, h]
    · simp [mapSet, mapGet, h, ih]

theorem mapGet_mapSet_other (m : List (Int × Image)) (k j : Int) (v : Image) (h : j ≠ k) :
    mapGet (mapSet m k v) j = mapGet m j := by
  induction m with
  | nil =>
    have h1 : ¬ k = j := fun e => h e.symm
    simp [mapSet, mapGet, h1]
  | cons p rest ih =>
    obtain ⟨k1, v1⟩ := p
    by_cases h1 : k1 = k
    · subst h1
      have h2 : ¬ k1 = j := fun e => h e.symm
      simp [mapSet, mapGet, h2]
    · by_cases h2 : k1 = j
      · subst h2
        simp [mapSet, mapGet, h1]
      · simp [mapSet, mapGet, h1, h2, ih]

theorem mapGet_mem (m : List (Int × Image)) (k : Int) (v : Image) (h : mapGet m k = some v) :
    (k, v) ∈ m := by
  induction m with
  | nil => simp [mapGet] at h
  | cons p rest ih =>
    obtain ⟨k1, v1⟩ := p
    by_cases h1 : k1 = k
    · simp [mapGet, h1] at h
      simp [h1, h]
    · simp [mapGet, h1] at h
      simp [ih h]

theorem mem_mapSet (m : List (Int × Image)) (k : Int) (v : Image) (p : Int × Image)
    (h : p ∈ mapSet m k v) : p = (k, v) ∨ p ∈ m := by
  induction m with
  | nil => simp [mapSet] at h; exact Or.inl h
  | cons q rest ih =>
    obtain ⟨k1, v1⟩ := q
    by_cases h1 : k1 = k
    · simp [mapSet, h1] at h
      rcases h with h | h
      · exact Or.inl h
      · exact Or.inr (List.mem_cons_of_mem _ h)
    · simp [mapSet, h1] at h
      rcases h with h | h
      · exact Or.inr (by simp [h])
      · rcases ih h with h2 | h2
        · exact Or.inl h2
        · exact Or.inr (List.mem_cons_of_mem _ h2)

theorem iconName_assets (K : Consts) (assets : String → Option (Int × Int))
    (hA : assetsOK assets) (icon : Int) (name : String) (h : iconName K icon = some name) :
    ∃ w h, assets name = some (w, h) := by
  have hmem : name ∈ ["check.png", "close.png", "collapsed.png", "expanded.png"] := by
    unfold iconName at h
    split_ifs at h <;> simp at h <;> simp [← h]
  have := hA name hmem
  cases hn : assets name with
  | none => simp [hn] at this
  | some p => exact ⟨p.1, p.2, rfl⟩

/-! ### The icon cache -/

theorem iconImage_hit (K : Consts) (assets : String → Option (Int × Int)) (st : IconStore)
    (icon : Int) (img : Image) (h : mapGet st.iconMap icon = some img) :
    iconImage K assets st icon = some (some img, st) := by
  simp [iconImage, h]

theorem iconImage_miss (K : Consts) (assets : String → Option (Int × Int))
    (hA : assetsOK assets) (st : IconStore) (icon : Int) (name : String)
    (hm : mapGet st.iconMap icon = none) (hn : iconName K icon = some name) :
    ∃ w h, iconImage K assets st icon =
      some (some ⟨st.decoded.length, ⟨⟨0, 0⟩, ⟨w, h⟩⟩⟩,
        ⟨mapSet st.iconMap icon ⟨st.decoded.length, ⟨⟨0, 0⟩, ⟨w, h⟩⟩⟩,
          st.decoded ++ [icon]⟩) := by
  obtain ⟨w, h, hwh⟩ := iconName_assets K assets hA icon name hn
  exact ⟨w, h, by simp [iconImage, hm, hn, hwh, mapGet_mapSet_self]⟩

theorem iconImage_unknown (K : Consts) (assets : String → Option (Int × Int))
    (st : IconStore) (icon : Int) (hst : st.keysKnown K) (hn : iconName K icon = none) :
    iconImage K assets st icon = some (none, st) := by
  cases hm : mapGet st.iconMap icon with
  | none => simp [iconImage, hm, hn]
  | some img =>
    have := hst (icon, img) (mapGet_mem _ _ _ hm)
    simp [hn] at this

theorem iconImage_known (K : Consts) (assets : String → Option (Int × Int))
    (hA : assetsOK assets) (st : IconStore) (icon : Int) (name : String)
    (hn : iconName K icon = some name) :
    ∃ img st1, iconImage K assets st icon = some (some img, st1) ∧
      mapGet st1.iconMap icon = some img := by
  cases hm : mapGet st.iconMap icon with
  | some img => exact ⟨img, st, iconImage_hit K assets st icon img hm, hm⟩
  | none =>
    obtain ⟨w, h, e⟩ := iconImage_miss K assets hA st icon name hm hn
    exact ⟨_, _, e, mapGet_mapSet_self _ _ _⟩

theorem iconImage_total (K : Consts) (assets : String → Option (Int × Int))
    (hA : assetsOK assets) (st : IconStore) (icon : Int) :
    ∃ r st1, iconImage K assets st icon = some (r, st1) := by
  cases hn : iconName K icon with
  | some name =>
    obtain ⟨img, st1, e, _⟩ := iconImage_known K assets hA st icon name hn
    exact ⟨some img, st1, e⟩
  | none =>
    cases hm : mapGet st.iconMap icon with
    | some img => exact ⟨some img, st, iconImage_hit K assets st icon img hm⟩
    | none => exact ⟨none, st, by simp [iconImage, hm, hn]⟩

/-- What a returning `iconImage` call did: nothing to the store, or one decode and one
insertion under a key that was absent and is in the enumeration. -/
theorem iconImage_cases (K : Consts) (assets : String → Option (Int × Int))
    (st st1 : IconStore) (icon : Int) (r : Option Image)
    (h : iconImage K assets st icon = some (r, st1)) :
    (st1 = st ∧ (mapGet st.iconMap icon = none → r = none ∧ iconName K icon = none)) ∨
    (mapGet st.iconMap icon = none ∧ (iconName K icon).isSome = true ∧
      ∃ img, r = some img ∧ st1 = ⟨mapSet st.iconMap icon img, st.decoded ++ [icon]⟩) := by
  unfold iconImage at h
  cases hm : mapGet st.iconMap icon with
  | some img =>
    simp [hm] at h
    exact Or.inl ⟨h.2.symm, by simp⟩
  | none =>
    cases hn : iconName K icon with
    | none =>
      simp [hm, hn] at h
      exact Or.inl ⟨h.2.symm, fun _ => ⟨h.1.symm, rfl⟩⟩
    | some name =>
      cases ha : assets name with
      | none => simp [hm, hn, ha] at h
      | some wh =>
        obtain ⟨w, hh⟩ := wh
        simp [hm, hn, ha, mapGet_mapSet_self] at h
        exact Or.inr ⟨rfl, rfl, _, h.1.symm, h.2.symm⟩

theorem iconImage_keysKnown (K : Consts) (assets : String → Option (Int × Int))
    (st st1 : IconStore) (icon : Int) (r : Option Image) (hst : st.keysKnown K)
    (h : iconImage K assets st icon = some (r, st1)) : st1.keysKnown K := by
  rcases iconImage_cases K assets st st1 icon r h with ⟨e, _⟩ | ⟨_, hn, img, _, e⟩
  · rw [e]; exact hst
  · rw [e]
    intro p hp
    rcases mem_mapSet _ _ _ _ hp with hp | hp
    · rw [hp]; exact hn
    · exact hst p hp

theorem iconImage_preserves (K : Consts) (assets : String → Option (Int × Int))
    (st st1 : IconStore) (icon : Int) (r : Option Image)
    (h : iconImage K assets st icon = some (r, st1)) (k : Int) (v : Image)
    (hk : mapGet st.iconMap k = some v) : mapGet st1.iconMap k = some v := by
  rcases iconImage_cases K assets st st1 icon r h with ⟨e, _⟩ | ⟨hm, _, img, _, e⟩
  · rw [e]; exact hk
  · rw [e]
    have hne : k ≠ icon := by
      intro e1; rw [e1, hm] at hk; simp at hk
    simp only [mapGet_mapSet_other _ _ _ _ hne, hk]

theorem iconImages_total (K : Consts) (assets : String → Option (Int × Int))
    (hA : assetsOK assets) (icons : List Int) (st : IconStore) :
    ∃ st1, iconImages K assets st icons = some st1 := by
  induction icons generalizing st with
  | nil => exact ⟨st, rfl⟩
  | cons icon rest ih =>
    obtain ⟨r, st1, e⟩ := iconImage_total K assets hA st icon
    obtain ⟨st2, e2⟩ := ih st1
    exact ⟨st2, by simp [iconImages, e, e2]⟩

theorem iconImages_preserves (K : Consts) (assets : String → Option (Int × Int))
    (icons : List Int) (st st1 : IconStore) (h : iconImages K assets st icons = some st1)
    (k : Int) (v : Image) (hk : mapGet st.iconMap k = some v) :
    mapGet st1.iconMap k = some v := by
  induction icons generalizing st with
  | nil => simp [iconImages] at h; rw [← h]; exact hk
  | cons icon rest ih =>
    unfold iconImages at h
    cases e : iconImage K assets st icon with
    | none => simp [e] at h
    | some p =>
      obtain ⟨r, st2⟩ := p
      simp [e] at h
      exact ih st2 h (iconImage_preserves K assets st st2 icon r e k v hk)

theorem iconImages_keysKnown (K : Consts) (assets : String → Option (Int × Int))
    (icons : List Int) (st st1 : IconStore) (h : iconImages K assets st icons = some st1)
    (hst : st.keysKnown K) : st1.keysKnown K := by
  induction icons generalizing st with
  | nil => simp [iconImages] at h; rw [← h]; exact hst
  | cons icon rest ih =>
    unfold iconImages at h
    cases e : iconImage K assets st icon with
    | none => simp [e] at h
    | some p =>
      obtain ⟨r, st2⟩ := p
      simp [e] at h
      exact ih st2 h (iconImage_keysKnown K assets st st2 icon r hst e)

theorem reachable_keysKnown (K : Consts) (assets : String → Option (Int × Int))
    (st : IconStore) (h : Reachable K assets st) : st.keysKnown K := by
  obtain ⟨icons, e⟩ := h
  exact iconImages_keysKnown K assets icons IconStore.empty st e
    (fun p hp => by simp [IconStore.empty] at hp)

theorem iconImages_decoded (K : Consts) (assets : String → Option (Int × Int))
    (icon : Int) (calls : List Int) (st st2 : IconStore)
    (h : iconImages K assets st calls = some st2) :
    st2.decoded.count icon ≤
      st.decoded.count icon + (if (mapGet st.iconMap icon).isSome then 0 else 1) := by
  induction calls generalizing st with
  | nil => simp [iconImages] at h; rw [← h]; omega
  | cons i rest ih =>
    unfold iconImages at h
    cases e : iconImage K assets st i with
    | none => simp [e] at h
    | some p =>
      obtain ⟨r, st1⟩ := p
      simp [e] at h
      have h2 := ih st1 h
      rcases iconImage_cases K assets st st1 i r e with ⟨e1, _⟩ | ⟨hm, _, img, _, e1⟩
      · rw [e1] at h2; exact h2
      · rw [e1] at h2
        simp only [List.count_append] at h2
        by_cases c : i = icon
        · subst c
          simp only [mapGet_mapSet_self, Option.isSome_some, if_true, List.count_singleton_self]
            at h2
          simp only [hm, Option.isSome_none]
          simpa using h2
        · have hc : List.count icon [i] = 0 := by
            simp [List.count_singleton, c]
          rw [hc, mapGet_mapSet_other _ _ _ _ (fun e2 => c e2.symm)] at h2
          simpa using h2

/-! ### The command renderer -/

theorem kinds_ne (K : Consts) (hK : K.kindsDistinct) :
    K.CommandRect ≠ K.CommandText ∧ K.CommandRect ≠ K.CommandIcon ∧
    K.CommandRect ≠ K.CommandClip ∧ K.CommandText ≠ K.CommandIcon ∧
    K.CommandText ≠ K.CommandClip ∧ K.CommandIcon ≠ K.CommandClip := by
  unfold Consts.kindsDistinct at hK
  simp only [List.nodup_cons, List.mem_cons, List.mem_singleton, not_or, List.not_mem_nil,
    not_false_eq_true, List.nodup_nil, and_true] at hK
  tauto

theorem drawCommand_rect (K : Consts) (assets : String → Option (Int × Int)) (screen : Image)
    (s : DrawState) (cmd : command) (h : cmd.typ = K.CommandRect) :
    drawCommand K assets screen s cmd =
      some ⟨s.target, s.calls ++ [DrawCall.filledRect s.target
        (float32OfInt cmd.rect.rect.Min.X) (float32OfInt cmd.rect.rect.Min.Y)
        (float32OfInt cmd.rect.rect.Dx) (float32OfInt cmd.rect.rect.Dy)
        cmd.rect.color false], s.store⟩ := by
  simp [drawCommand, h]

theorem drawCommand_text (K : Consts) (assets : String → Option (Int × Int)) (screen : Image)
    (hK : K.kindsDistinct) (s : DrawState) (cmd : command) (h : cmd.typ = K.CommandText) :
    drawCommand K assets screen s cmd =
      some ⟨s.target, s.calls ++ [DrawCall.text s.target cmd.text.str
        (float64OfInt cmd.text.pos.X) (float64OfInt cmd.text.pos.Y) cmd.text.color],
        s.store⟩ := by
  obtain ⟨h1, -⟩ := kinds_ne K hK
  simp [drawCommand, h, h1.symm]

theorem drawCommand_icon (K : Consts) (assets : String → Option (Int × Int)) (screen : Image)
    (hK : K.kindsDistinct) (s : DrawState) (cmd : command) (h : cmd.typ = K.CommandIcon) :
    drawCommand K assets screen s cmd =
      match iconImage K assets s.store cmd.icon.icon with
      | none => none
      | some (none, st) => some ⟨s.target, s.calls, st⟩
      | some (some img, st) =>
        some ⟨s.target, s.calls ++ [DrawCall.image Target.screen img
          (float64OfInt (iconOffset cmd.icon.rect.Min.X cmd.icon.rect.Dx img.bounds.Dx))
          (float64OfInt (iconOffset cmd.icon.rect.Min.Y cmd.icon.rect.Dy img.bounds.Dy))
          cmd.icon.color], st⟩ := by
  obtain ⟨-, h2, -, h4, -⟩ := kinds_ne K hK
  simp [drawCommand, h, h2.symm, h4.symm]

theorem drawCommand_clip (K : Consts) (assets : String → Option (Int × Int)) (screen : Image)
    (hK : K.kindsDistinct) (s : DrawState) (cmd : command) (h : cmd.typ = K.CommandClip) :
    drawCommand K assets screen s cmd =
      some ⟨clipTarget screen cmd.clip.rect, s.calls, s.store⟩ := by
  obtain ⟨-, -, h3, -, h5, h6⟩ := kinds_ne K hK
  simp [drawCommand, h, h3.symm, h5.symm, h6.symm]

theorem drawCommand_other (K : Consts) (assets : String → Option (Int × Int)) (screen : Image)
    (s : DrawState) (cmd : command) (h1 : cmd.typ ≠ K.CommandRect)
    (h2 : cmd.typ ≠ K.CommandText) (h3 : cmd.typ ≠ K.CommandIcon)
    (h4 : cmd.typ ≠ K.CommandClip) :
    drawCommand K assets screen s cmd = some s := by
  simp [drawCommand, h1, h2, h3, h4]

theorem drawCommand_total (K : Consts) (assets : String → Option (Int × Int)) (screen : Image)
    (hA : assetsOK assets) (s : DrawState) (cmd : command) :
    ∃ s1, drawCommand K assets screen s cmd = some s1 := by
  obtain ⟨r, st1, e⟩ := iconImage_total K assets hA s.store cmd.icon.icon
  unfold drawCommand
  split_ifs
  · exact ⟨_, rfl⟩
  · exact ⟨_, rfl⟩
  · cases r with
    | none => rw [e]; exact ⟨_, rfl⟩
    | some img => rw [e]; exact ⟨_, rfl⟩
  · exact ⟨_, rfl⟩
  · exact ⟨_, rfl⟩

theorem drawLoop_append (K : Consts) (assets : String → Option (Int × Int)) (screen : Image)
    (l1 l2 : List command) (s : DrawState) :
    drawLoop K assets screen s (l1 ++ l2) =
      (drawLoop K assets screen s l1).bind (fun s1 => drawLoop K assets screen s1 l2) := by
  induction l1 generalizing s with
  | nil => simp [drawLoop]
  | cons cmd rest ih =>
    simp only [List.cons_append, drawLoop]
    cases drawCommand K assets screen s cmd with
    | none => simp
    | some s1 => simpa using ih s1

theorem drawLoop_snoc (K : Consts) (assets : String → Option (Int × Int)) (screen : Image)
    (l : List command) (cmd : command) (s : DrawState) :
    drawLoop K assets screen s (l ++ [cmd]) =
      (drawLoop K assets screen s l).bind (fun s1 => drawCommand K assets screen s1 cmd) := by
  rw [drawLoop_append]
  congr 1
  funext s1
  simp only [drawLoop]
  cases drawCommand K assets screen s1 cmd <;> rfl

theorem drawLoop_total (K : Consts) (assets : String → Option (Int × Int)) (screen : Image)
    (hA : assetsOK assets) (cmds : List command) (s : DrawState) :
    ∃ s1, drawLoop K assets screen s cmds = some s1 := by
  induction cmds generalizing s with
  | nil => exact ⟨s, rfl⟩
  | cons cmd rest ih =>
    obtain ⟨s1, e⟩ := drawCommand_total K assets screen hA s cmd
    obtain ⟨s2, e2⟩ := ih s1
    exact ⟨s2, by simp [drawLoop, e, e2]⟩

theorem drawCommand_target (K : Consts) (assets : String → Option (Int × Int))
    (screen : Image) (hK : K.kindsDistinct) (s s1 : DrawState) (cmd : command)
    (h : drawCommand K assets screen s cmd = some s1) :
    s1.target = if cmd.typ = K.CommandClip then clipTarget screen cmd.clip.rect
      else s.target := by
  obtain ⟨-, -, h3, -, h5, h6⟩ := kinds_ne K hK
  by_cases c4 : cmd.typ = K.CommandClip
  · rw [drawCommand_clip K assets screen hK s cmd c4] at h
    simp at h
    simp [c4, ← h]
  · simp only [c4, if_false]
    unfold drawCommand at h
    split_ifs at h
    · simp at h; rw [← h]
    · simp at h; rw [← h]
    · cases e : iconImage K assets s.store cmd.icon.icon with
      | none => simp [e] at h
      | some p =>
        obtain ⟨r, st⟩ := p
        cases r with
        | none => simp [e] at h; rw [← h]
        | some img => simp [e] at h; rw [← h]
    · simp at h; rw [← h]

theorem lastClip_snoc (K : Consts) (l : List command) (cmd : command) :
    lastClip K (l ++ [cmd]) =
      if cmd.typ = K.CommandClip then some cmd.clip.rect else lastClip K l := by
  unfold lastClip
  by_cases c : cmd.typ = K.CommandClip
  · simp [List.filter_append, c]
  · simp [List.filter_append, c]

theorem drawLoop_target (K : Consts) (assets : String → Option (Int × Int))
    (screen : Image) (hK : K.kindsDistinct) (cmds : List command) (s s1 : DrawState)
    (h : drawLoop K assets screen s cmds = some s1) :
    s1.target = match lastClip K cmds with
      | none => s.target
      | some rect => clipTarget screen rect := by
  induction cmds using List.reverseRecOn generalizing s1 with
  | nil =>
    simp [drawLoop] at h
    simp [lastClip, ← h]
  | append_singleton l cmd ih =>
    rw [drawLoop_snoc] at h
    cases e : drawLoop K assets screen s l with
    | none => simp [e] at h
    | some s2 =>
      simp [e] at h
      have h1 := drawCommand_target K assets screen hK s2 s1 cmd h
      rw [h1, lastClip_snoc]
      by_cases c : cmd.typ = K.CommandClip
      · simp [c]
      · simp only [c, if_false]
        exact ih s2 e

theorem drawCommand_keysKnown (K : Consts) (assets : String → Option (Int × Int))
    (screen : Image) (s s1 : DrawState) (cmd : command) (hs : s.store.keysKnown K)
    (h : drawCommand K assets screen s cmd = some s1) : s1.store.keysKnown K := by
  unfold drawCommand at h
  split_ifs at h
  · simp at h; rw [← h]; exact hs
  · simp at h; rw [← h]; exact hs
  · cases e : iconImage K assets s.store cmd.icon.icon with
    | none => simp [e] at h
    | some p =>
      obtain ⟨r, st⟩ := p
      have hk := iconImage_keysKnown K assets s.store st cmd.icon.icon r hs e
      cases r with
      | none => simp [e] at h; rw [← h]; exact hk
      | some img => simp [e] at h; rw [← h]; exact hk
  · simp at h; rw [← h]; exact hs
  · simp at h; rw [← h]; exact hs

theorem drawLoop_keysKnown (K : Consts) (assets : String → Option (Int × Int))
    (screen : Image) (cmds : List command) (s s1 : DrawState) (hs : s.store.keysKnown K)
    (h : drawLoop K assets screen s cmds = some s1) : s1.store.keysKnown K := by
  induction cmds generalizing s with
  | nil => simp [drawLoop] at h; rw [← h]; exact hs
  | cons cmd rest ih =>
    unfold drawLoop at h
    cases e : drawCommand K assets screen s cmd with
    | none => simp [e] at h
    | some s2 =>
      simp [e] at h
      exact ih s2 (drawCommand_keysKnown K assets screen s s2 cmd hs e) h

/-! ### The input translator -/

theorem keyStep_eq (s : InputSample) (evs : List Event) (k : Key) :
    keyStep s evs k = evs ++ keyEvents s k := by
  unfold keyStep keyEvents
  split_ifs <;> simp

/-- The events of one frame, part by part. -/
theorem updateInput_eq (F : FloatEnv) (s : InputSample) :
    updateInput F s =
      [Event.mouseMove s.cursorX s.cursorY] ++ scrollEvents F s ++ textEvents s ++
        buttonEvents s MouseButton.Left ++ buttonEvents s MouseButton.Right ++
        keyEvents s Key.Alt ++ keyEvents s Key.Backspace ++ keyEvents s Key.Control ++
        keyEvents s Key.Enter ++ keyEvents s Key.Shift := by
  have hs : ∀ evs : List Event,
      (if s.wheelX.nonZero = true ∨ s.wheelY.nonZero = true then
        evs ++ [Event.scroll (floatToInt F (mulNeg30 F s.wheelX))
          (floatToInt F (mulNeg30 F s.wheelY))]
      else evs) = evs ++ scrollEvents F s := by
    intro evs; unfold scrollEvents; split_ifs <;> simp
  have ht : ∀ evs : List Event,
      (if s.chars.length > 0 then evs ++ [Event.text s.chars] else evs) =
        evs ++ textEvents s := by
    intro evs; unfold textEvents
    cases hc : s.chars <;> simp
  have hb : ∀ (b : MouseButton) (evs : List Event),
      (if s.mouseJustPressed b = true then evs ++ [Event.mouseDown s.cursorX s.cursorY b]
      else if s.mouseJustReleased b = true then evs ++ [Event.mouseUp s.cursorX s.cursorY b]
      else evs) = evs ++ buttonEvents s b := by
    intro b evs; unfold buttonEvents; split_ifs <;> simp
  simp only [updateInput, hs, ht, hb, List.foldl, keyStep_eq]

theorem filter_button_events (F : FloatEnv) (s : InputSample) (b : MouseButton)
    (hb : b = MouseButton.Left ∨ b = MouseButton.Right) :
    (updateInput F s).filter (isButtonEvent b) = buttonEvents s b := by
  have h1 : (scrollEvents F s).filter (isButtonEvent b) = [] := by
    unfold scrollEvents; split_ifs <;> simp [isButtonEvent]
  have h2 : (textEvents s).filter (isButtonEvent b) = [] := by
    unfold textEvents; split_ifs <;> simp [isButtonEvent]
  have h3 : ∀ k, (keyEvents s k).filter (isButtonEvent b) = [] := by
    intro k; unfold keyEvents; split_ifs <;> simp [isButtonEvent]
  have h4 : ∀ b1, (buttonEvents s b1).filter (isButtonEvent b) =
      if b1 = b then buttonEvents s b1 else [] := by
    intro b1; unfold buttonEvents
    by_cases e : b1 = b
    · split_ifs <;> simp [isButtonEvent, e]
    · split_ifs <;> simp [isButtonEvent, e]
  rw [updateInput_eq]
  simp only [List.filter_append, h1, h2, h3, h4]
  rcases hb with hb | hb <;> subst hb <;> simp [isButtonEvent]

theorem filter_key_events (F : FloatEnv) (s : InputSample) (k : Key)
    (hk : k ∈ [Key.Alt, Key.Backspace, Key.Control, Key.Enter, Key.Shift]) :
    (updateInput F s).filter (isKeyEvent k) = keyEvents s k := by
  have h1 : (scrollEvents F s).filter (isKeyEvent k) = [] := by
    unfold scrollEvents; split_ifs <;> simp [isKeyEvent]
  have h2 : (textEvents s).filter (isKeyEvent k) = [] := by
    unfold textEvents; split_ifs <;> simp [isKeyEvent]
  have h3 : ∀ b, (buttonEvents s b).filter (isKeyEvent k) = [] := by
    intro b; unfold buttonEvents; split_ifs <;> simp [isKeyEvent]
  have h4 : ∀ k1, (keyEvents s k1).filter (isKeyEvent k) =
      if k1 = k then keyEvents s k1 else [] := by
    intro k1; unfold keyEvents
    by_cases e : k1 = k
    · split_ifs <;> simp [isKeyEvent, e]
    · split_ifs <;> simp [isKeyEvent, e]
  rw [updateInput_eq]
  simp only [List.filter_append, h1, h2, h3, h4]
  simp only [List.mem_cons, List.mem_singleton, List.not_mem_nil, or_false] at hk
  rcases hk with hk | hk | hk | hk | hk <;> subst hk <;> simp [isKeyEvent]

theorem filter_scroll_events (F : FloatEnv) (s : InputSample) :
    (updateInput F s).filter isScroll = scrollEvents F s := by
  have h1 : (scrollEvents F s).filter isScroll = scrollEvents F s := by
    unfold scrollEvents; split_ifs <;> simp [isScroll]
  have h2 : (textEvents s).filter isScroll = [] := by
    unfold textEvents; split_ifs <;> simp [isScroll]
  have h3 : ∀ b, (buttonEvents s b).filter isScroll = [] := by
    intro b; unfold buttonEvents; split_ifs <;> simp [isScroll]
  have h4 : ∀ k, (keyEvents s k).filter isScroll = [] := by
    intro k; unfold keyEvents; split_ifs <;> simp [isScroll]
  rw [updateInput_eq]
  simp [List.filter_append, h1, h2, h3, h4, isScroll]

theorem filter_text_events (F : FloatEnv) (s : InputSample) :
    (updateInput F s).filter isText = textEvents s := by
  have h1 : (scrollEvents F s).filter isText = [] := by
    unfold scrollEvents; split_ifs <;> simp [isText]
  have h2 : (textEvents s).filter isText = textEvents s := by
    unfold textEvents; split_ifs <;> simp [isText]
  have h3 : ∀ b, (buttonEvents s b).filter isText = [] := by
    intro b; unfold buttonEvents; split_ifs <;> simp [isText]
  have h4 : ∀ k, (keyEvents s k).filter isText = [] := by
    intro k; unfold keyEvents; split_ifs <;> simp [isText]
  rw [updateInput_eq]
  simp [List.filter_append, h1, h2, h3, h4, isText]

/-! ### Floating-point conversions -/

theorem roundToPrecision_exact (p : Nat) (n : Int) (h : n.natAbs < 2 ^ p) :
    roundToPrecision p n = n := by
  unfold roundToPrecision
  simp only [h, if_true]

theorem float32OfInt_exact (n : Int) (h1 : -16777216 ≤ n) (h2 : n ≤ 16777216) :
    float32OfInt n = n := by
  by_cases c1 : n = 16777216
  · subst c1; decide
  · by_cases c2 : n = -16777216
    · subst c2; decide
    · exact roundToPrecision_exact 24 n (by norm_num; omega)

theorem float64OfInt_exact (n : Int) (h1 : -9007199254740992 < n)
    (h2 : n < 9007199254740992) : float64OfInt n = n :=
  roundToPrecision_exact 53 n (by norm_num; omega)

theorem wrapInt_range (x : Int) :
    -9223372036854775808 ≤ wrapInt x ∧ wrapInt x < 9223372036854775808 := by
  unfold wrapInt; omega

/-- The quotient `Int.tdiv q.num q.den` is `q` with its fraction discarded. -/
theorem tdiv_trunc (q : Rat) :
    |((Int.tdiv q.num q.den : Int) : Rat)| ≤ |q| ∧
    |q - ((Int.tdiv q.num q.den : Int) : Rat)| < 1 := by
  by_cases h : 0 ≤ q.num
  · have e : Int.tdiv q.num q.den = ⌊q⌋ := by
      rw [Int.tdiv_eq_ediv h (by positivity), Rat.floor_def]
    have hq : 0 ≤ q := Rat.num_nonneg.mp h
    have h0 : (0 : Rat) ≤ ((⌊q⌋ : Int) : Rat) := by exact_mod_cast Int.floor_nonneg.mpr hq
    have h1 := Int.floor_le q
    have h2 := Int.lt_floor_add_one q
    rw [e, abs_of_nonneg h0, abs_of_nonneg hq, abs_of_nonneg (by linarith)]
    constructor <;> linarith
  · have hn : q.num < 0 := by omega
    have hq : q < 0 := Rat.num_neg.mp hn
    have e : Int.tdiv q.num q.den = -⌊-q⌋ := by
      have h1 : Int.tdiv (-(-q.num)) q.den = -(Int.tdiv (-q.num) q.den) := Int.neg_tdiv _ _
      rw [neg_neg] at h1
      rw [h1, Int.tdiv_eq_ediv (by omega) (by positivity), Rat.floor_def]
      simp
    have h0 : (0 : Rat) ≤ ((⌊-q⌋ : Int) : Rat) := by
      exact_mod_cast Int.floor_nonneg.mpr (by linarith)
    have h1 := Int.floor_le (-q)
    have h2 := Int.lt_floor_add_one (-q)
    rw [e]
    push_cast
    rw [abs_neg, abs_of_nonneg h0, abs_of_neg hq, abs_of_nonpos (by linarith)]
    constructor <;> linarith

/-- Discarding the fraction determines the integer. -/
theorem trunc_unique (r : Rat) (t u : Int) (ht1 : |(t : Rat)| ≤ |r|) (ht2 : |r - t| < 1)
    (hu1 : |(u : Rat)| ≤ |r|) (hu2 : |r - u| < 1) : t = u := by
  rw [abs_lt] at ht2 hu2
  rw [abs_le] at ht1 hu1
  have key : ((t - u : Int) : Rat) < 1 ∧ (-1 : Rat) < ((t - u : Int) : Rat) := by
    push_cast
    by_cases hr : 0 ≤ r
    · rw [abs_of_nonneg hr] at ht1 hu1
      constructor <;> linarith [ht1.1, ht1.2, hu1.1, hu1.2, ht2.1, ht2.2, hu2.1, hu2.2]
    · rw [abs_of_neg (by linarith)] at ht1 hu1
      constructor <;> linarith [ht1.1, ht1.2, hu1.1, hu1.2, ht2.1, ht2.2, hu2.1, hu2.2]
  have k1 : t - u < 1 := by exact_mod_cast key.1
  have k2 : -1 < t - u := by exact_mod_cast key.2
  omega

theorem floatToInt_range (F : FloatEnv) (f : Float64) :
    -9223372036854775808 ≤ floatToInt F f ∧ floatToInt F f < 9223372036854775808 := by
  cases f with
  | finite q =>
    simp only [floatToInt]
    split_ifs with h
    · exact h
    · exact wrapInt_range _
  | posInf => exact wrapInt_range _
  | negInf => exact wrapInt_range _
  | nan => exact wrapInt_range _

theorem floatToInt_finite (F : FloatEnv) (r : Rat) (h1 : -9223372036854775809 < r)
    (h2 : r < 9223372036854775808) :
    floatToInt F (Float64.finite r) = Int.tdiv r.num r.den := by
  obtain ⟨t1, t2⟩ := tdiv_trunc r
  rw [abs_lt] at t2
  rw [abs_le] at t1
  have hr : (-9223372036854775808 : Int) ≤ Int.tdiv r.num r.den ∧
      Int.tdiv r.num r.den < (9223372036854775808 : Int) := by
    have k : (-9223372036854775809 : Rat) < ((Int.tdiv r.num r.den : Int) : Rat) ∧
        ((Int.tdiv r.num r.den : Int) : Rat) < (9223372036854775808 : Rat) := by
      by_cases c : 0 ≤ r
      · rw [abs_of_nonneg c] at t1
        constructor <;> linarith [t1.1, t1.2, t2.1, t2.2]
      · rw [abs_of_neg (by linarith)] at t1
        constructor <;> linarith [t1.1, t1.2, t2.1, t2.2]
    have k1 : (-9223372036854775809 : Int) < Int.tdiv r.num r.den := by exact_mod_cast k.1
    have k2 : Int.tdiv r.num r.den < (9223372036854775808 : Int) := by exact_mod_cast k.2
    constructor <;> omega
  simp only [floatToInt]
  rw [if_pos hr]

/-- A finite value within the range of `int` converts to the integer between it and zero
that is less than 1 away from it. -/
theorem floatToInt_of_trunc (F : FloatEnv) (r : Rat) (t : Int)
    (h1 : -9223372036854775809 < r) (h2 : r < 9223372036854775808)
    (hpos : 0 ≤ r → (t : Rat) ≤ r ∧ r < t + 1)
    (hneg : r < 0 → (t : Rat) - 1 < r ∧ r ≤ t) :
    floatToInt F (Float64.finite r) = t := by
  rw [floatToInt_finite F r h1 h2]
  obtain ⟨u1, u2⟩ := tdiv_trunc r
  have hsign : (0 ≤ r → (0 : Rat) ≤ t) ∧ (r < 0 → (t : Rat) ≤ 0) := by
    constructor
    · intro c
      obtain ⟨a, b⟩ := hpos c
      have k : ((-1 : Int) : Rat) < (t : Rat) := by push_cast; linarith
      have k2 : (-1 : Int) < t := by exact_mod_cast k
      have k3 : (0 : Int) ≤ t := by omega
      exact_mod_cast k3
    · intro c
      obtain ⟨a, b⟩ := hneg c
      have k : (t : Rat) < ((1 : Int) : Rat) := by push_cast; linarith
      have k2 : t < (1 : Int) := by exact_mod_cast k
      have k3 : t ≤ (0 : Int) := by omega
      exact_mod_cast k3
  refine trunc_unique r _ t u1 u2 ?_ ?_
  · by_cases c : 0 ≤ r
    · obtain ⟨a, b⟩ := hpos c
      have := hsign.1 c
      rw [abs_of_nonneg c, abs_le]; constructor <;> linarith
    · obtain ⟨a, b⟩ := hneg (by linarith)
      have hr : r < 0 := by linarith
      have := hsign.2 hr
      rw [abs_of_neg hr, abs_le]; constructor <;> linarith
  · by_cases c : 0 ≤ r
    · obtain ⟨a, b⟩ := hpos c
      rw [abs_lt]; constructor <;> linarith
    · obtain ⟨a, b⟩ := hneg (by linarith)
      rw [abs_lt]; constructor <;> linarith

theorem floatToInt_intCast (F : FloatEnv) (n : Int) :
    floatToInt F (Float64.finite (n : Rat)) =
      if -9223372036854775808 ≤ n ∧ n < 9223372036854775808 then n
      else wrapInt (F.outOfRange (Float64.finite (n : Rat))) := by
  simp [floatToInt]


/-! ### Sample data -/

theorem sampleAssets_ok : assetsOK sampleAssets := by
  intro name _
  rfl

/-! ## Claims on the command renderer -/

/-- C1. Clip replacement, not stacking: a command list ending in `Clip(A), Clip(B)` leaves
the same drawing target as the list with `Clip(B)` alone in place of the pair, namely the
target of `B`; and after any command list `Draw` returns with the target that is a function
of the surface and of the rectangle of the last Clip command alone (the surface itself when
there is none). -/
theorem clip_replacement (K : Consts) (assets : String → Option (Int × Int)) (screen : Image)
    (st : IconStore) (hK : K.kindsDistinct) (hA : assetsOK assets) :
    (∀ (pre : List command) (A B : command),
      A.typ = K.CommandClip → B.typ = K.CommandClip →
      ∃ s1 s2, Context.Draw K assets ⟨pre ++ [A, B]⟩ screen st = some s1 ∧
        Context.Draw K assets ⟨pre ++ [B]⟩ screen st = some s2 ∧
        s1.target = s2.target ∧ s2.target = clipTarget screen B.clip.rect) ∧
    (∀ cmds : List command,
      ∃ s, Context.Draw K assets ⟨cmds⟩ screen st = some s ∧
        s.target = targetOf screen (lastClip K cmds)) := by
  have key : ∀ cmds : List command,
      ∃ s, Context.Draw K assets ⟨cmds⟩ screen st = some s ∧
        s.target = targetOf screen (lastClip K cmds) := by
    intro cmds
    obtain ⟨s, e⟩ := drawLoop_total K assets screen hA cmds ⟨Target.screen, [], st⟩
    refine ⟨s, e, ?_⟩
    rw [drawLoop_target K assets screen hK cmds _ s e]
    cases lastClip K cmds <;> rfl
  refine ⟨?_, key⟩
  intro pre A B hAc hBc
  obtain ⟨s1, e1, t1⟩ := key (pre ++ [A, B])
  obtain ⟨s2, e2, t2⟩ := key (pre ++ [B])
  have l1 : lastClip K (pre ++ [A, B]) = some B.clip.rect := by
    have : pre ++ [A, B] = (pre ++ [A]) ++ [B] := by simp
    rw [this, lastClip_snoc]; simp [hBc]
  have l2 : lastClip K (pre ++ [B]) = some B.clip.rect := by
    rw [lastClip_snoc]; simp [hBc]
  rw [l1] at t1
  rw [l2] at t2
  exact ⟨s1, s2, e1, e2, by rw [t1, t2], by rw [t2]; rfl⟩

theorem clip_replacement_witness :
    sampleConsts.kindsDistinct ∧ assetsOK sampleAssets ∧
    ∃ s1 s2,
      Context.Draw sampleConsts sampleAssets
        ⟨[rectCmd sampleConsts ⟨⟨1, 1⟩, ⟨9, 9⟩⟩ red] ++
          [clipCmd sampleConsts ⟨⟨0, 0⟩, ⟨20, 20⟩⟩, clipCmd sampleConsts ⟨⟨5, 5⟩, ⟨90, 80⟩⟩]⟩
        sampleScreen IconStore.empty = some s1 ∧
      Context.Draw sampleConsts sampleAssets
        ⟨[rectCmd sampleConsts ⟨⟨1, 1⟩, ⟨9, 9⟩⟩ red] ++
          [clipCmd sampleConsts ⟨⟨5, 5⟩, ⟨90, 80⟩⟩]⟩
        sampleScreen IconStore.empty = some s2 ∧
      s1.target = s2.target ∧
      s2.target = clipTarget sampleScreen (clipCmd sampleConsts ⟨⟨5, 5⟩, ⟨90, 80⟩⟩).clip.rect :=
  ⟨by decide, sampleAssets_ok,
    (clip_replacement sampleConsts sampleAssets sampleScreen IconStore.empty (by decide)
      sampleAssets_ok).1 _ _ _ rfl rfl⟩

/-- C2, the claim as stated fails. On the 200 x 100 surface at the origin the command
`Clip({300, 5, 250, 40})` requests `{200, 5, 300, 40}`: the min X of the command exceeds
the clamped max X, and `image.Rect` swaps the two. On the surface with bounds
`{10, 10, 110, 60}` the command `Clip({20, 20, 500, 500})` requests `{20, 20, 100, 50}`:
the clamp is against the width and height of the surface, not against its max corner. -/
theorem clip_region_counterexample :
    (Context.Draw sampleConsts sampleAssets
        ⟨[clipCmd sampleConsts ⟨⟨300, 5⟩, ⟨250, 40⟩⟩]⟩ sampleScreen IconStore.empty =
        some ⟨Target.subImage ⟨⟨200, 5⟩, ⟨300, 40⟩⟩, [], IconStore.empty⟩ ∧
      ¬ clipAsSpecified sampleScreen ⟨⟨300, 5⟩, ⟨250, 40⟩⟩ ⟨⟨200, 5⟩, ⟨300, 40⟩⟩) ∧
    (Context.Draw sampleConsts sampleAssets
        ⟨[clipCmd sampleConsts ⟨⟨20, 20⟩, ⟨500, 500⟩⟩]⟩ offsetScreen IconStore.empty =
        some ⟨Target.subImage ⟨⟨20, 20⟩, ⟨100, 50⟩⟩, [], IconStore.empty⟩ ∧
      ¬ clipAsSpecified offsetScreen ⟨⟨20, 20⟩, ⟨500, 500⟩⟩ ⟨⟨20, 20⟩, ⟨100, 50⟩⟩) := by
  refine ⟨⟨?_, ?_⟩, ⟨?_, ?_⟩⟩
  · decide
  · decide
  · decide
  · decide

/-- C2, amended. For a Clip command with rectangle `(minX, minY, maxX, maxY)`, `Draw`
requests the sub-image `image.Rect(minX, minY, min(maxX, W), min(maxY, H))` of the surface,
where `W` and `H` are the width and height of the surface. Per axis: the min edge of the
request is the smaller and the max edge the larger of the command's min and the clamped
max; so when the command's min does not exceed the clamped max, the min edge is the
command's min unchanged (also when negative) and the max edge is the clamped max. For a
surface whose bounds start at the origin, `W` and `H` are its max X and max Y. -/
theorem clip_region (K : Consts) (assets : String → Option (Int × Int)) (screen : Image)
    (st : IconStore) (hK : K.kindsDistinct) (hA : assetsOK assets)
    (pre : List command) (cmd : command) (hc : cmd.typ = K.CommandClip) :
    ∃ s r, Context.Draw K assets ⟨pre ++ [cmd]⟩ screen st = some s ∧
      s.target = Target.subImage r ∧
      r = imageRect cmd.clip.rect.Min.X cmd.clip.rect.Min.Y
        (min cmd.clip.rect.Max.X screen.bounds.Dx)
        (min cmd.clip.rect.Max.Y screen.bounds.Dy) ∧
      r.Min.X = min cmd.clip.rect.Min.X (min cmd.clip.rect.Max.X screen.bounds.Dx) ∧
      r.Max.X = max cmd.clip.rect.Min.X (min cmd.clip.rect.Max.X screen.bounds.Dx) ∧
      r.Min.Y = min cmd.clip.rect.Min.Y (min cmd.clip.rect.Max.Y screen.bounds.Dy) ∧
      r.Max.Y = max cmd.clip.rect.Min.Y (min cmd.clip.rect.Max.Y screen.bounds.Dy) ∧
      (cmd.clip.rect.Min.X ≤ min cmd.clip.rect.Max.X screen.bounds.Dx →
        r.Min.X = cmd.clip.rect.Min.X ∧
        r.Max.X = min cmd.clip.rect.Max.X screen.bounds.Dx) ∧
      (cmd.clip.rect.Min.Y ≤ min cmd.clip.rect.Max.Y screen.bounds.Dy →
        r.Min.Y = cmd.clip.rect.Min.Y ∧
        r.Max.Y = min cmd.clip.rect.Max.Y screen.bounds.Dy) ∧
      (screen.bounds.Min = ⟨0, 0⟩ →
        0 ≤ screen.bounds.Max.X → screen.bounds.Max.X < 9223372036854775808 →
        0 ≤ screen.bounds.Max.Y → screen.bounds.Max.Y < 9223372036854775808 →
        screen.bounds.Dx = screen.bounds.Max.X ∧ screen.bounds.Dy = screen.bounds.Max.Y) := by
  obtain ⟨s, e⟩ := drawLoop_total K assets screen hA (pre ++ [cmd]) ⟨Target.screen, [], st⟩
  have ht := drawLoop_target K assets screen hK (pre ++ [cmd]) _ s e
  rw [lastClip_snoc] at ht
  simp only [hc, if_true] at ht
  refine ⟨s, _, e, ht, rfl, ?_, ?_, ?_, ?_, ?_, ?_, ?_⟩
  · simp only [imageRect]; split_ifs <;> omega
  · simp only [imageRect]; split_ifs <;> omega
  · simp only [imageRect]; split_ifs <;> omega
  · simp only [imageRect]; split_ifs <;> omega
  · intro h; simp only [imageRect]; split_ifs <;> omega
  · intro h; simp only [imageRect]; split_ifs <;> omega
  · intro h0 h1 h2 h3 h4
    have hx : screen.bounds.Min.X = 0 := by rw [h0]
    have hy : screen.bounds.Min.Y = 0 := by rw [h0]
    unfold Rectangle.Dx Rectangle.Dy
    rw [hx, hy]
    have e1 := wrapInt_of_small (screen.bounds.Max.X - 0) (by omega) (by omega)
    have e2 := wrapInt_of_small (screen.bounds.Max.Y - 0) (by omega) (by omega)
    exact ⟨by omega, by omega⟩

theorem clip_region_witness :
    sampleConsts.kindsDistinct ∧ assetsOK sampleAssets ∧
    (clipCmd sampleConsts ⟨⟨-5, 7⟩, ⟨250, 40⟩⟩).typ = sampleConsts.CommandClip ∧
    ∃ s r, Context.Draw sampleConsts sampleAssets
        ⟨[rectCmd sampleConsts ⟨⟨1, 1⟩, ⟨9, 9⟩⟩ red] ++
          [clipCmd sampleConsts ⟨⟨-5, 7⟩, ⟨250, 40⟩⟩]⟩ sampleScreen IconStore.empty = some s ∧
      s.target = Target.subImage r ∧ r.Min.X = -5 ∧ r.Max.X = 200 ∧ r.Min.Y = 7 ∧
      r.Max.Y = 40 := by
  refine ⟨by decide, sampleAssets_ok, rfl, ?_⟩
  obtain ⟨s, r, e, ht, -, h1, h2, h3, h4, -⟩ :=
    clip_region sampleConsts sampleAssets sampleScreen IconStore.empty (by decide)
      sampleAssets_ok [rectCmd sampleConsts ⟨⟨1, 1⟩, ⟨9, 9⟩⟩ red]
      (clipCmd sampleConsts ⟨⟨-5, 7⟩, ⟨250, 40⟩⟩) rfl
  refine ⟨s, r, e, ht, ?_, ?_, ?_, ?_⟩
  · rw [h1]; decide
  · rw [h2]; decide
  · rw [h3]; decide
  · rw [h4]; decide

/-- C3. Draw targets: after any commands `pre`, a Rect or Text command issues its draw
call against the current drawing target, which is the full surface when `pre` has no Clip
command and else the sub-region of the last Clip command of `pre`; an Icon command issues
its draw call, if any, against the full surface. For
`[Clip({0,0,100,50}), Rect({10,10,20,20}, red), Text("hi", (5,5), black)]` both draw calls
are issued against the sub-region of that Clip command, which is `{0,0,100,50}` on a
surface at least 100 wide and 50 high. -/
theorem draw_targets (K : Consts) (assets : String → Option (Int × Int)) (screen : Image)
    (st : IconStore) (hK : K.kindsDistinct) (hA : assetsOK assets) :
    (∀ (pre : List command) (cmd : command),
      ∃ s0 s1, Context.Draw K assets ⟨pre⟩ screen st = some s0 ∧
        Context.Draw K assets ⟨pre ++ [cmd]⟩ screen st = some s1 ∧
        (cmd.typ = K.CommandRect →
          s1.calls = s0.calls ++ [DrawCall.filledRect (targetOf screen (lastClip K pre))
            (float32OfInt cmd.rect.rect.Min.X) (float32OfInt cmd.rect.rect.Min.Y)
            (float32OfInt cmd.rect.rect.Dx) (float32OfInt cmd.rect.rect.Dy)
            cmd.rect.color false]) ∧
        (cmd.typ = K.CommandText →
          s1.calls = s0.calls ++ [DrawCall.text (targetOf screen (lastClip K pre))
            cmd.text.str (float64OfInt cmd.text.pos.X) (float64OfInt cmd.text.pos.Y)
            cmd.text.color]) ∧
        (cmd.typ = K.CommandIcon →
          s1.calls = s0.calls ∨
          ∃ img x y, s1.calls = s0.calls ++
            [DrawCall.image Target.screen img x y cmd.icon.color])) ∧
    (∃ s, Context.Draw K assets
        ⟨[clipCmd K ⟨⟨0, 0⟩, ⟨100, 50⟩⟩, rectCmd K ⟨⟨10, 10⟩, ⟨20, 20⟩⟩ red,
          textCmd K "hi" ⟨5, 5⟩ black]⟩ screen st = some s ∧
      s.calls =
        [DrawCall.filledRect (clipTarget screen ⟨⟨0, 0⟩, ⟨100, 50⟩⟩) 10 10 10 10 red false,
         DrawCall.text (clipTarget screen ⟨⟨0, 0⟩, ⟨100, 50⟩⟩) "hi" 5 5 black]) ∧
    (100 ≤ screen.bounds.Dx → 50 ≤ screen.bounds.Dy →
      clipTarget screen ⟨⟨0, 0⟩, ⟨100, 50⟩⟩ = Target.subImage ⟨⟨0, 0⟩, ⟨100, 50⟩⟩) := by
  refine ⟨?_, ?_, ?_⟩
  · intro pre cmd
    obtain ⟨s0, e0⟩ := drawLoop_total K assets screen hA pre ⟨Target.screen, [], st⟩
    obtain ⟨s1, e1⟩ := drawCommand_total K assets screen hA s0 cmd
    have ht := drawLoop_target K assets screen hK pre _ s0 e0
    have ht2 : s0.target = targetOf screen (lastClip K pre) := by
      rw [ht]; cases lastClip K pre <;> rfl
    have e2 : Context.Draw K assets ⟨pre ++ [cmd]⟩ screen st = some s1 := by
      unfold Context.Draw
      rw [drawLoop_snoc, e0]
      exact e1
    refine ⟨s0, s1, e0, e2, ?_, ?_, ?_⟩
    · intro hc
      rw [drawCommand_rect K assets screen s0 cmd hc] at e1
      simp at e1
      rw [← e1, ht2]
    · intro hc
      rw [drawCommand_text K assets screen hK s0 cmd hc] at e1
      simp at e1
      rw [← e1, ht2]
    · intro hc
      rw [drawCommand_icon K assets screen hK s0 cmd hc] at e1
      cases e : iconImage K assets s0.store cmd.icon.icon with
      | none => simp [e] at e1
      | some p =>
        obtain ⟨r, st1⟩ := p
        cases r with
        | none =>
          simp [e] at e1
          exact Or.inl (by rw [← e1])
        | some img =>
          simp [e] at e1
          exact Or.inr ⟨img, _, _, by rw [← e1]⟩
  · have e : Context.Draw K assets
        ⟨[clipCmd K ⟨⟨0, 0⟩, ⟨100, 50⟩⟩, rectCmd K ⟨⟨10, 10⟩, ⟨20, 20⟩⟩ red,
          textCmd K "hi" ⟨5, 5⟩ black]⟩ screen st =
        some ⟨clipTarget screen ⟨⟨0, 0⟩, ⟨100, 50⟩⟩,
          [DrawCall.filledRect (clipTarget screen ⟨⟨0, 0⟩, ⟨100, 50⟩⟩) 10 10 10 10 red false,
           DrawCall.text (clipTarget screen ⟨⟨0, 0⟩, ⟨100, 50⟩⟩) "hi" 5 5 black], st⟩ := by
      simp only [Context.Draw, drawLoop]
      rw [drawCommand_clip K assets screen hK _ _ rfl]
      simp only []
      rw [drawCommand_rect K assets screen _ _ rfl]
      simp only []
      rw [drawCommand_text K assets screen hK _ _ rfl]
      have r1 : float32OfInt 10 = 10 := by decide
      have r2 : float64OfInt 5 = 5 := by decide
      have r3 : (⟨⟨10, 10⟩, ⟨20, 20⟩⟩ : Rectangle).Dx = 10 := by decide
      have r4 : (⟨⟨10, 10⟩, ⟨20, 20⟩⟩ : Rectangle).Dy = 10 := by decide
      simp [rectCmd, textCmd, clipCmd, r1, r2, r3, r4]
    exact ⟨_, e, rfl⟩
  · intro h1 h2
    simp only [clipTarget, imageRect]
    have e1 : min (100 : Int) screen.bounds.Dx = 100 := by omega
    have e2 : min (50 : Int) screen.bounds.Dy = 50 := by omega
    rw [e1, e2]
    rfl

theorem draw_targets_witness :
    sampleConsts.kindsDistinct ∧ assetsOK sampleAssets ∧
    ∃ s, Context.Draw sampleConsts sampleAssets
        ⟨[clipCmd sampleConsts ⟨⟨0, 0⟩, ⟨100, 50⟩⟩,
          rectCmd sampleConsts ⟨⟨10, 10⟩, ⟨20, 20⟩⟩ red,
          textCmd sampleConsts "hi" ⟨5, 5⟩ black]⟩ sampleScreen IconStore.empty = some s ∧
      s.calls =
        [DrawCall.filledRect (clipTarget sampleScreen ⟨⟨0, 0⟩, ⟨100, 50⟩⟩)
          10 10 10 10 red false,
         DrawCall.text (clipTarget sampleScreen ⟨⟨0, 0⟩, ⟨100, 50⟩⟩) "hi" 5 5 black] :=
  ⟨by decide, sampleAssets_ok,
    (draw_targets sampleConsts sampleAssets sampleScreen IconStore.empty (by decide)
      sampleAssets_ok).2.1⟩

/-! ## Claims on the input translator -/

/-- C4, the claim as stated fails. The integer-valued wheel delta `(10^19, -10^19)` does
not yield the scroll event `(-30 * 10^19, 30 * 10^19)`: the products are outside the range
of `int`, where `int(...)` gives an implementation-dependent `int` (the smallest one in
the sample environment). -/
theorem scroll_translation_counterexample :
    (updateInput sampleFloat hugeWheelFrame).filter isScroll =
      [Event.scroll (-9223372036854775808) (-9223372036854775808)] ∧
    (updateInput sampleFloat hugeWheelFrame).filter isScroll ≠
      [Event.scroll (-30 * 10000000000000000000) (-30 * -10000000000000000000)] := by
  have e : (updateInput sampleFloat hugeWheelFrame).filter isScroll =
      [Event.scroll (-9223372036854775808) (-9223372036854775808)] := by
    rw [filter_scroll_events]
    have p1 : ((10000000000000000000 : Int) : Rat) * -30 =
        ((-300000000000000000000 : Int) : Rat) := by push_cast; norm_num
    have p2 : ((-10000000000000000000 : Int) : Rat) * -30 =
        ((300000000000000000000 : Int) : Rat) := by push_cast; norm_num
    have n1 : hugeWheelFrame.wheelX.nonZero = true := by
      simp [hugeWheelFrame, Float64.nonZero]
    simp only [scrollEvents, n1, true_or, if_true, hugeWheelFrame, mulNeg30, sampleFloat,
      p1, p2, floatToInt_intCast]
    decide
  refine ⟨e, ?_⟩
  rw [e]
  decide

/-- C4, amended. Scroll translation: `updateInput` forwards a scroll event if and only if
the wheel delta `(wx, wy)` has `wx != 0` or `wy != 0`, it forwards at most one, and the
event carries `(int(wx * -30), int(wy * -30))`, two values of type `int`. Where a product
is finite and within the range of `int`, the value carried is the product with its fraction
discarded (truncation toward zero); so for integer-valued deltas `(m, n)` whose products
with `-30` are represented exactly and lie within the range of `int`, the event is
`(-30 * m, -30 * n)`, and the wheel delta `(1, -2)` yields the scroll event `(-30, 60)`.
Outside the range of `int` (and for an infinite or NaN product) the value carried is
implementation-dependent. -/
theorem scroll_translation (F : FloatEnv) (s : InputSample) :
    ((updateInput F s).filter isScroll =
      if s.wheelX.nonZero ∨ s.wheelY.nonZero then
        [Event.scroll (floatToInt F (mulNeg30 F s.wheelX))
          (floatToInt F (mulNeg30 F s.wheelY))]
      else []) ∧
    ((∃ x y, Event.scroll x y ∈ updateInput F s) ↔
      (s.wheelX.nonZero = true ∨ s.wheelY.nonZero = true)) ∧
    (∀ x y, Event.scroll x y ∈ updateInput F s →
      (-9223372036854775808 ≤ x ∧ x < 9223372036854775808) ∧
      (-9223372036854775808 ≤ y ∧ y < 9223372036854775808)) ∧
    (∀ x y, Event.scroll x y ∈ updateInput F s →
      (∀ q r : Rat, s.wheelX = Float64.finite q → F.round (q * -30) = Float64.finite r →
        -9223372036854775809 < r → r < 9223372036854775808 →
        |(x : Rat)| ≤ |r| ∧ |r - x| < 1) ∧
      (∀ q r : Rat, s.wheelY = Float64.finite q → F.round (q * -30) = Float64.finite r →
        -9223372036854775809 < r → r < 9223372036854775808 →
        |(y : Rat)| ≤ |r| ∧ |r - y| < 1)) ∧
    (∀ m n : Int, s.wheelX = Float64.finite (m : Rat) → s.wheelY = Float64.finite (n : Rat) →
      F.round ((m : Rat) * -30) = Float64.finite ((m : Rat) * -30) →
      F.round ((n : Rat) * -30) = Float64.finite ((n : Rat) * -30) →
      (-9223372036854775808 ≤ -30 * m ∧ -30 * m < 9223372036854775808) →
      (-9223372036854775808 ≤ -30 * n ∧ -30 * n < 9223372036854775808) →
      (updateInput F s).filter isScroll =
        if m ≠ 0 ∨ n ≠ 0 then [Event.scroll (-30 * m) (-30 * n)] else []) ∧
    (s.wheelX = Float64.finite 1 → s.wheelY = Float64.finite (-2) →
      F.round (-30) = Float64.finite (-30) → F.round 60 = Float64.finite 60 →
      (updateInput F s).filter isScroll = [Event.scroll (-30) 60]) := by
  have hf := filter_scroll_events F s
  have hmem : ∀ x y, Event.scroll x y ∈ updateInput F s →
      x = floatToInt F (mulNeg30 F s.wheelX) ∧ y = floatToInt F (mulNeg30 F s.wheelY) := by
    intro x y hm
    have hm2 : Event.scroll x y ∈ (updateInput F s).filter isScroll :=
      List.mem_filter.mpr ⟨hm, rfl⟩
    rw [hf] at hm2
    unfold scrollEvents at hm2
    split_ifs at hm2
    · simpa using hm2
    · simp at hm2
  have hint : ∀ m n : Int, s.wheelX = Float64.finite (m : Rat) →
      s.wheelY = Float64.finite (n : Rat) →
      F.round ((m : Rat) * -30) = Float64.finite ((m : Rat) * -30) →
      F.round ((n : Rat) * -30) = Float64.finite ((n : Rat) * -30) →
      (-9223372036854775808 ≤ -30 * m ∧ -30 * m < 9223372036854775808) →
      (-9223372036854775808 ≤ -30 * n ∧ -30 * n < 9223372036854775808) →
      (updateInput F s).filter isScroll =
        if m ≠ 0 ∨ n ≠ 0 then [Event.scroll (-30 * m) (-30 * n)] else [] := by
    intro m n hx hy rx ry bm bn
    rw [hf]
    unfold scrollEvents
    rw [hx, hy]
    simp only [mulNeg30, rx, ry]
    have e1 : ((m : Rat) * -30) = ((-30 * m : Int) : Rat) := by push_cast; ring
    have e2 : ((n : Rat) * -30) = ((-30 * n : Int) : Rat) := by push_cast; ring
    rw [e1, e2, floatToInt_intCast, floatToInt_intCast, if_pos bm, if_pos bn]
    by_cases h : m ≠ 0 ∨ n ≠ 0
    · have c : (Float64.finite (m : Rat)).nonZero = true ∨
          (Float64.finite (n : Rat)).nonZero = true := by
        rcases h with h | h
        · left; simp [Float64.nonZero, h]
        · right; simp [Float64.nonZero, h]
      rw [if_pos c, if_pos h]
    · have c : ¬ ((Float64.finite (m : Rat)).nonZero = true ∨
          (Float64.finite (n : Rat)).nonZero = true) := by
        push_neg at h
        simp [Float64.nonZero, h.1, h.2]
      rw [if_neg c, if_neg h]
  refine ⟨hf, ?_, ?_, ?_, hint, ?_⟩
  · constructor
    · rintro ⟨x, y, hm⟩
      by_contra hz
      have hm2 : Event.scroll x y ∈ (updateInput F s).filter isScroll :=
        List.mem_filter.mpr ⟨hm, rfl⟩
      rw [hf] at hm2
      unfold scrollEvents at hm2
      rw [if_neg hz] at hm2
      simp at hm2
    · intro hz
      have hm : Event.scroll (floatToInt F (mulNeg30 F s.wheelX))
          (floatToInt F (mulNeg30 F s.wheelY)) ∈ (updateInput F s).filter isScroll := by
        rw [hf]; unfold scrollEvents; rw [if_pos hz]; simp
      exact ⟨_, _, (List.mem_filter.mp hm).1⟩
  · intro x y hm
    obtain ⟨ex, ey⟩ := hmem x y hm
    rw [ex, ey]
    exact ⟨floatToInt_range F _, floatToInt_range F _⟩
  · intro x y hm
    obtain ⟨ex, ey⟩ := hmem x y hm
    constructor
    · intro q r hq hr b1 b2
      rw [ex, hq]
      simp only [mulNeg30, hr]
      rw [floatToInt_finite F r b1 b2]
      exact tdiv_trunc r
    · intro q r hq hr b1 b2
      rw [ey, hq]
      simp only [mulNeg30, hr]
      rw [floatToInt_finite F r b1 b2]
      exact tdiv_trunc r
  · intro hx hy r1 r2
    have := hint 1 (-2) (by rw [hx]; norm_num) (by rw [hy]; norm_num)
      (by norm_num; exact r1) (by norm_num; exact r2) (by decide) (by decide)
    rw [this]
    simp

theorem scroll_translation_witness :
    wheelFrame.wheelX = Float64.finite 1 ∧ wheelFrame.wheelY = Float64.finite (-2) ∧
    sampleFloat.round (-30) = Float64.finite (-30) ∧
    sampleFloat.round 60 = Float64.finite 60 ∧
    (updateInput sampleFloat wheelFrame).filter isScroll = [Event.scroll (-30) 60] :=
  ⟨rfl, rfl, rfl, rfl, (scroll_translation sampleFloat wheelFrame).2.2.2.2.2 rfl rfl rfl rfl⟩


/-- The wheel delta `(0.05, -0.05)` has the products `-1.5` and `1.5`, and yields the
scroll event `(-1, 1)`: the fraction is discarded toward zero. -/
theorem scroll_fraction_example :
    (updateInput sampleFloat fractionFrame).filter isScroll = [Event.scroll (-1) 1] := by
  rw [filter_scroll_events]
  have n2 : (Float64.finite (1 / 20)).nonZero = true := by
    simp [Float64.nonZero]
  have a1 : ∀ F : FloatEnv, floatToInt F (Float64.finite (1 / 20 * -30)) = -1 := fun F =>
    floatToInt_of_trunc F _ _ (by norm_num) (by norm_num) (by norm_num) (by norm_num)
  have a2 : ∀ F : FloatEnv, floatToInt F (Float64.finite (-1 / 20 * -30)) = 1 := fun F =>
    floatToInt_of_trunc F _ _ (by norm_num) (by norm_num) (by norm_num) (by norm_num)
  simp only [scrollEvents, fractionFrame, mulNeg30, sampleFloat, a1, a2]
  rw [if_pos (Or.inl n2)]

/-- C5. Edge-triggered buttons and keys: in one frame `updateInput` forwards, for each of
the two buttons and each of the five keys, at most one event: a down event (with the
pointer coordinates for a button) if it is reported just-pressed, also when it is reported
just-released too; an up event if it is reported just-released and not just-pressed; no
event otherwise. Over a sequence of frames in which a button is just-pressed in exactly one
frame `fi` and just-released in exactly one later frame `fj`, the events forwarded for it
are one down event (frame `fi`) and one up event (frame `fj`), and every other frame
forwards none for it. -/
theorem edge_triggered (F : FloatEnv) :
    (∀ (s : InputSample) (b : MouseButton), b = MouseButton.Left ∨ b = MouseButton.Right →
      (updateInput F s).filter (isButtonEvent b) =
        (if s.mouseJustPressed b then [Event.mouseDown s.cursorX s.cursorY b]
         else if s.mouseJustReleased b then [Event.mouseUp s.cursorX s.cursorY b]
         else []) ∧
      ((updateInput F s).filter (isButtonEvent b)).length ≤ 1) ∧
    (∀ (s : InputSample) (k : Key),
      k ∈ [Key.Alt, Key.Backspace, Key.Control, Key.Enter, Key.Shift] →
      (updateInput F s).filter (isKeyEvent k) =
        (if s.keyJustPressed k then [Event.keyDown k]
         else if s.keyJustReleased k then [Event.keyUp k]
         else []) ∧
      ((updateInput F s).filter (isKeyEvent k)).length ≤ 1) ∧
    (∀ (b : MouseButton) (pre mid post : List InputSample) (fi fj : InputSample),
      b = MouseButton.Left ∨ b = MouseButton.Right →
      (∀ f ∈ pre ++ mid ++ post,
        f.mouseJustPressed b = false ∧ f.mouseJustReleased b = false) →
      fi.mouseJustPressed b = true →
      fj.mouseJustPressed b = false → fj.mouseJustReleased b = true →
      (((pre ++ [fi] ++ mid ++ [fj] ++ post).map (updateInput F)).flatten).filter
          (isButtonEvent b) =
        [Event.mouseDown fi.cursorX fi.cursorY b, Event.mouseUp fj.cursorX fj.cursorY b] ∧
      ∀ f ∈ pre ++ mid ++ post, (updateInput F f).filter (isButtonEvent b) = []) := by
  refine ⟨?_, ?_, ?_⟩
  · intro s b hb
    have h := filter_button_events F s b hb
    refine ⟨h, ?_⟩
    rw [h]; unfold buttonEvents; split_ifs <;> simp
  · intro s k hk
    have h := filter_key_events F s k hk
    refine ⟨h, ?_⟩
    rw [h]; unfold keyEvents; split_ifs <;> simp
  · intro b pre mid post fi fj hb hsteady hpi hpj hrj
    have hidle : ∀ f, f.mouseJustPressed b = false ∧ f.mouseJustReleased b = false →
        (updateInput F f).filter (isButtonEvent b) = [] := by
      intro f hf
      rw [filter_button_events F f b hb]
      simp [buttonEvents, hf.1, hf.2]
    have hlist : ∀ l : List InputSample,
        (∀ f ∈ l, f.mouseJustPressed b = false ∧ f.mouseJustReleased b = false) →
        ((l.map (updateInput F)).flatten).filter (isButtonEvent b) = [] := by
      intro l hl
      induction l with
      | nil => rfl
      | cons f rest ih =>
        simp only [List.map_cons, List.flatten_cons, List.filter_append]
        rw [hidle f (hl f (List.mem_cons_self _ _)),
          ih (fun g hg => hl g (List.mem_cons_of_mem _ hg))]
        rfl
    have hpre := hlist pre (fun f hf => hsteady f (by simp [hf]))
    have hmid := hlist mid (fun f hf => hsteady f (by simp [hf]))
    have hpost := hlist post (fun f hf => hsteady f (by simp [hf]))
    have hfi : (updateInput F fi).filter (isButtonEvent b) =
        [Event.mouseDown fi.cursorX fi.cursorY b] := by
      rw [filter_button_events F fi b hb]; simp [buttonEvents, hpi]
    have hfj : (updateInput F fj).filter (isButtonEvent b) =
        [Event.mouseUp fj.cursorX fj.cursorY b] := by
      rw [filter_button_events F fj b hb]; simp [buttonEvents, hpj, hrj]
    refine ⟨?_, fun f hf => hidle f (hsteady f hf)⟩
    simp only [List.map_append, List.flatten_append, List.filter_append, List.map_cons,
      List.map_nil, List.flatten_cons, List.flatten_nil, List.append_nil, hpre, hmid, hpost,
      hfi, hfj]
    rfl

theorem edge_triggered_witness :
    (∀ f ∈ [idleFrame 0 0] ++ [idleFrame 1 1, idleFrame 2 2] ++ [idleFrame 9 9],
      f.mouseJustPressed MouseButton.Left = false ∧
      f.mouseJustReleased MouseButton.Left = false) ∧
    (pressFrame 1 0).mouseJustPressed MouseButton.Left = true ∧
    (releaseFrame 3 3).mouseJustPressed MouseButton.Left = false ∧
    (releaseFrame 3 3).mouseJustReleased MouseButton.Left = true ∧
    ((([idleFrame 0 0] ++ [pressFrame 1 0] ++ [idleFrame 1 1, idleFrame 2 2] ++
        [releaseFrame 3 3] ++ [idleFrame 9 9]).map (updateInput sampleFloat)).flatten).filter
        (isButtonEvent MouseButton.Left) =
      [Event.mouseDown 1 0 MouseButton.Left, Event.mouseUp 3 3 MouseButton.Left] :=
  have hs : ∀ f ∈ [idleFrame 0 0] ++ [idleFrame 1 1, idleFrame 2 2] ++ [idleFrame 9 9],
      f.mouseJustPressed MouseButton.Left = false ∧
      f.mouseJustReleased MouseButton.Left = false := by
    intro f hf
    simp only [List.cons_append, List.nil_append, List.mem_cons, List.mem_singleton,
      List.not_mem_nil, or_false] at hf
    rcases hf with hf | hf | hf | hf <;> subst hf <;> exact ⟨rfl, rfl⟩
  ⟨hs, rfl, rfl, rfl,
    ((edge_triggered sampleFloat).2.2 MouseButton.Left [idleFrame 0 0]
      [idleFrame 1 1, idleFrame 2 2] [idleFrame 9 9] (pressFrame 1 0) (releaseFrame 3 3)
      (Or.inl rfl) hs rfl rfl rfl).1⟩

/-! ## Claims on the icon cache and on the draw calls -/

/-- C6. Icon cache memoization: for an identifier of the closed enumeration and any cache
state, the first `iconImage` call for it (the identifier not yet cached) performs one
decode and stores the handle it returns; after an `iconImage` call for it, and after any
further `iconImage` calls, a call with the same identifier returns the identical handle and
leaves the cache and the decode log unchanged; entries are never evicted or overwritten; and
over any sequence of calls at most one decode of the identifier is added, so at most one
happens in a process. -/
theorem icon_memoization (K : Consts) (assets : String → Option (Int × Int))
    (hA : assetsOK assets) (icon : Int) (name : String) (hn : iconName K icon = some name)
    (st : IconStore) :
    (mapGet st.iconMap icon = none →
      ∃ img st1, iconImage K assets st icon = some (some img, st1) ∧
        st1.decoded = st.decoded ++ [icon] ∧ mapGet st1.iconMap icon = some img) ∧
    (∃ img st1, iconImage K assets st icon = some (some img, st1) ∧
      ∀ others : List Int, ∃ st2, iconImages K assets st1 others = some st2 ∧
        iconImage K assets st2 icon = some (some img, st2)) ∧
    (∀ calls : List Int, ∃ st2, iconImages K assets st calls = some st2 ∧
      (∀ k v, mapGet st.iconMap k = some v → mapGet st2.iconMap k = some v) ∧
      st2.decoded.count icon ≤ st.decoded.count icon + 1) ∧
    (∀ calls : List Int, ∃ st2, iconImages K assets IconStore.empty calls = some st2 ∧
      st2.decoded.count icon ≤ 1) := by
  refine ⟨?_, ?_, ?_, ?_⟩
  · intro hm
    obtain ⟨w, h, e⟩ := iconImage_miss K assets hA st icon name hm hn
    exact ⟨_, _, e, rfl, mapGet_mapSet_self _ _ _⟩
  · obtain ⟨img, st1, e, hg⟩ := iconImage_known K assets hA st icon name hn
    refine ⟨img, st1, e, ?_⟩
    intro others
    obtain ⟨st2, e2⟩ := iconImages_total K assets hA others st1
    exact ⟨st2, e2, iconImage_hit K assets st2 icon img
      (iconImages_preserves K assets others st1 st2 e2 icon img hg)⟩
  · intro calls
    obtain ⟨st2, e2⟩ := iconImages_total K assets hA calls st
    refine ⟨st2, e2, fun k v hk => iconImages_preserves K assets calls st st2 e2 k v hk, ?_⟩
    have := iconImages_decoded K assets icon calls st st2 e2
    split_ifs at this <;> omega
  · intro calls
    obtain ⟨st2, e2⟩ := iconImages_total K assets hA calls IconStore.empty
    refine ⟨st2, e2, ?_⟩
    have := iconImages_decoded K assets icon calls IconStore.empty st2 e2
    simpa [IconStore.empty, mapGet] using this

theorem icon_memoization_witness :
    assetsOK sampleAssets ∧ iconName sampleConsts 2 = some "check.png" ∧
    ∃ img st1, iconImage sampleConsts sampleAssets IconStore.empty 2 = some (some img, st1) ∧
      ∀ others : List Int, ∃ st2, iconImages sampleConsts sampleAssets st1 others = some st2 ∧
        iconImage sampleConsts sampleAssets st2 2 = some (some img, st2) :=
  ⟨sampleAssets_ok, rfl,
    (icon_memoization sampleConsts sampleAssets sampleAssets_ok 2 "check.png" rfl
      IconStore.empty).2.1⟩

/-- C7. Unrecognized icon is absorbed: for an identifier outside the closed enumeration and
a reachable cache state, `iconImage` returns nil and leaves the cache and the decode log
unchanged; `Draw` on a list holding an Icon command with that identifier returns, and gives
the same draw calls, target and cache as on the list without that command, so the command
emits no draw call and the remaining commands are processed. -/
theorem unrecognized_icon (K : Consts) (assets : String → Option (Int × Int))
    (hK : K.kindsDistinct) (hA : assetsOK assets) (st : IconStore)
    (hst : Reachable K assets st) (icon : Int) (hn : iconName K icon = none) :
    iconImage K assets st icon = some (none, st) ∧
    (∀ (screen : Image) (pre post : List command) (cmd : command),
      cmd.typ = K.CommandIcon → cmd.icon.icon = icon →
      ∃ s, Context.Draw K assets ⟨pre ++ cmd :: post⟩ screen st = some s ∧
        Context.Draw K assets ⟨pre ++ post⟩ screen st = some s) := by
  have hkn := reachable_keysKnown K assets st hst
  refine ⟨iconImage_unknown K assets st icon hkn hn, ?_⟩
  intro screen pre post cmd hc hi
  obtain ⟨s0, e0⟩ := drawLoop_total K assets screen hA pre ⟨Target.screen, [], st⟩
  obtain ⟨s, e⟩ := drawLoop_total K assets screen hA post s0
  have hk0 := drawLoop_keysKnown K assets screen pre _ s0 hkn e0
  have hstep : drawCommand K assets screen s0 cmd = some s0 := by
    rw [drawCommand_icon K assets screen hK s0 cmd hc, hi,
      iconImage_unknown K assets s0.store icon hk0 hn]
  refine ⟨s, ?_, ?_⟩
  · unfold Context.Draw
    simp only []
    rw [drawLoop_append, e0]
    simp only [Option.some_bind, drawLoop, hstep]
    exact e
  · unfold Context.Draw
    simp only []
    rw [drawLoop_append, e0]
    exact e

theorem unrecognized_icon_witness :
    sampleConsts.kindsDistinct ∧ assetsOK sampleAssets ∧
    Reachable sampleConsts sampleAssets IconStore.empty ∧ iconName sampleConsts 99 = none ∧
    iconImage sampleConsts sampleAssets IconStore.empty 99 = some (none, IconStore.empty) ∧
    ∃ s, Context.Draw sampleConsts sampleAssets
        ⟨[rectCmd sampleConsts ⟨⟨10, 10⟩, ⟨20, 20⟩⟩ red] ++
          iconCmd sampleConsts 99 ⟨⟨0, 0⟩, ⟨20, 20⟩⟩ black ::
            [textCmd sampleConsts "hi" ⟨5, 5⟩ black]⟩ sampleScreen IconStore.empty = some s ∧
      Context.Draw sampleConsts sampleAssets
        ⟨[rectCmd sampleConsts ⟨⟨10, 10⟩, ⟨20, 20⟩⟩ red] ++
          [textCmd sampleConsts "hi" ⟨5, 5⟩ black]⟩ sampleScreen IconStore.empty = some s :=
  have h := unrecognized_icon sampleConsts sampleAssets (by decide) sampleAssets_ok
    IconStore.empty ⟨[], rfl⟩ 99 rfl
  ⟨by decide, sampleAssets_ok, ⟨[], rfl⟩, rfl, h.1,
    h.2 sampleScreen [rectCmd sampleConsts ⟨⟨10, 10⟩, ⟨20, 20⟩⟩ red]
      [textCmd sampleConsts "hi" ⟨5, 5⟩ black]
      (iconCmd sampleConsts 99 ⟨⟨0, 0⟩, ⟨20, 20⟩⟩ black) rfl rfl⟩

/-- C8, the claim as stated fails. For the rectangle with X from `-2^63` to `2^63 - 1` and
a 16 x 16 bitmap, `R.Dx()` wraps around to `-1` and the bitmap is drawn at `x = 2^63`, not
at `-9`. For the rectangle with X from `2^53 + 1` to `2^53 + 17` the offset `2^53 + 1` is
rounded by `float64(x)`, the bitmap is drawn at `x = 2^53`, and the margins are `-1` and
`1`. -/
theorem icon_centering_counterexample :
    (Context.Draw sampleConsts sampleAssets
        ⟨[iconCmd sampleConsts 2
          ⟨⟨-9223372036854775808, 0⟩, ⟨9223372036854775807, 16⟩⟩ red]⟩
        sampleScreen IconStore.empty =
        some ⟨Target.screen,
          [DrawCall.image Target.screen ⟨0, ⟨⟨0, 0⟩, ⟨16, 16⟩⟩⟩ 9223372036854775808 0 red],
          ⟨[(2, ⟨0, ⟨⟨0, 0⟩, ⟨16, 16⟩⟩⟩)], [2]⟩⟩ ∧
      ¬ centredAsSpecified (-9223372036854775808) 9223372036854775807 16
        9223372036854775808) ∧
    (Context.Draw sampleConsts sampleAssets
        ⟨[iconCmd sampleConsts 2
          ⟨⟨9007199254740993, 0⟩, ⟨9007199254741009, 16⟩⟩ red]⟩
        sampleScreen IconStore.empty =
        some ⟨Target.screen,
          [DrawCall.image Target.screen ⟨0, ⟨⟨0, 0⟩, ⟨16, 16⟩⟩⟩ 9007199254740992 0 red],
          ⟨[(2, ⟨0, ⟨⟨0, 0⟩, ⟨16, 16⟩⟩⟩)], [2]⟩⟩ ∧
      ¬ centredAsSpecified 9007199254740993 9007199254741009 16 9007199254740992) := by
  refine ⟨⟨?_, ?_⟩, ⟨?_, ?_⟩⟩
  · decide
  · decide
  · decide
  · decide

/-- C8, amended. Icon centering: an Icon command with target rectangle `R` whose bitmap
resolves to `img` draws it at `x = float64(R.Min.X + (R.Dx() - img.Bounds().Dx()) / 2)`
and `y = float64(R.Min.Y + (R.Dy() - img.Bounds().Dy()) / 2)` in Go arithmetic. When the
coordinates of `R` and of the bounds of the bitmap have magnitude at most `2^50`, this is
`x = R.Min.X + (R.width - w) / 2` with the division truncating toward zero, and the left
and right margins (top and bottom margins) differ by at most 1, whatever the parity of the
size difference and also when the bitmap is larger than `R`. -/
theorem icon_centering (K : Consts) (assets : String → Option (Int × Int)) (screen : Image)
    (hK : K.kindsDistinct) (s : DrawState) (cmd : command) (img : Image) (st1 : IconStore)
    (hc : cmd.typ = K.CommandIcon)
    (hi : iconImage K assets s.store cmd.icon.icon = some (some img, st1)) :
    ∃ x y, drawCommand K assets screen s cmd =
        some ⟨s.target, s.calls ++ [DrawCall.image Target.screen img x y cmd.icon.color],
          st1⟩ ∧
      x = float64OfInt (iconOffset cmd.icon.rect.Min.X cmd.icon.rect.Dx img.bounds.Dx) ∧
      y = float64OfInt (iconOffset cmd.icon.rect.Min.Y cmd.icon.rect.Dy img.bounds.Dy) ∧
      (coordOK cmd.icon.rect.Min.X → coordOK cmd.icon.rect.Max.X →
        coordOK img.bounds.Min.X → coordOK img.bounds.Max.X →
        centredAsSpecified cmd.icon.rect.Min.X cmd.icon.rect.Max.X
          (img.bounds.Max.X - img.bounds.Min.X) x) ∧
      (coordOK cmd.icon.rect.Min.Y → coordOK cmd.icon.rect.Max.Y →
        coordOK img.bounds.Min.Y → coordOK img.bounds.Max.Y →
        centredAsSpecified cmd.icon.rect.Min.Y cmd.icon.rect.Max.Y
          (img.bounds.Max.Y - img.bounds.Min.Y) y) := by
  have key : ∀ lo hi ilo ihi : Int, coordOK lo → coordOK hi → coordOK ilo → coordOK ihi →
      centredAsSpecified lo hi (ihi - ilo)
        (float64OfInt (iconOffset lo (wrapInt (hi - lo)) (wrapInt (ihi - ilo)))) := by
    intro lo hi ilo ihi h1 h2 h3 h4
    unfold coordOK at h1 h2 h3 h4
    have w1 : wrapInt (hi - lo) = hi - lo := wrapInt_of_small _ (by omega) (by omega)
    have w2 : wrapInt (ihi - ilo) = ihi - ilo := wrapInt_of_small _ (by omega) (by omega)
    have w3 : wrapInt ((hi - lo) - (ihi - ilo)) = (hi - lo) - (ihi - ilo) :=
      wrapInt_of_small _ (by omega) (by omega)
    obtain ⟨t1, t2⟩ := tdiv_two_spec ((hi - lo) - (ihi - ilo))
    have tb : -1 ≤ 2 * Int.tdiv ((hi - lo) - (ihi - ilo)) 2 - ((hi - lo) - (ihi - ilo)) ∧
        2 * Int.tdiv ((hi - lo) - (ihi - ilo)) 2 - ((hi - lo) - (ihi - ilo)) ≤ 1 := by
      by_cases c : 0 ≤ (hi - lo) - (ihi - ilo)
      · rw [t1 c]; omega
      · rw [t2 (by omega)]; omega
    have w4 : wrapInt (lo + Int.tdiv ((hi - lo) - (ihi - ilo)) 2) =
        lo + Int.tdiv ((hi - lo) - (ihi - ilo)) 2 :=
      wrapInt_of_small _ (by omega) (by omega)
    have w5 : float64OfInt (lo + Int.tdiv ((hi - lo) - (ihi - ilo)) 2) =
        lo + Int.tdiv ((hi - lo) - (ihi - ilo)) 2 :=
      float64OfInt_exact _ (by omega) (by omega)
    have e : float64OfInt (iconOffset lo (wrapInt (hi - lo)) (wrapInt (ihi - ilo))) =
        lo + Int.tdiv ((hi - lo) - (ihi - ilo)) 2 := by
      unfold iconOffset; rw [w1, w2, w3, w4, w5]
    unfold centredAsSpecified
    rw [e]
    refine ⟨rfl, ?_, ?_⟩ <;> omega
  refine ⟨_, _, ?_, rfl, rfl, ?_, ?_⟩
  · rw [drawCommand_icon K assets screen hK s cmd hc, hi]
  · intro h1 h2 h3 h4
    exact key _ _ _ _ h1 h2 h3 h4
  · intro h1 h2 h3 h4
    exact key _ _ _ _ h1 h2 h3 h4

theorem icon_centering_witness :
    sampleConsts.kindsDistinct ∧
    (iconCmd sampleConsts 2 ⟨⟨0, 0⟩, ⟨21, 11⟩⟩ red).typ = sampleConsts.CommandIcon ∧
    iconImage sampleConsts sampleAssets IconStore.empty 2 =
      some (some ⟨0, ⟨⟨0, 0⟩, ⟨16, 16⟩⟩⟩, ⟨[(2, ⟨0, ⟨⟨0, 0⟩, ⟨16, 16⟩⟩⟩)], [2]⟩) ∧
    ∃ x y, drawCommand sampleConsts sampleAssets sampleScreen
        ⟨Target.screen, [], IconStore.empty⟩
        (iconCmd sampleConsts 2 ⟨⟨0, 0⟩, ⟨21, 11⟩⟩ red) =
        some ⟨Target.screen,
          [DrawCall.image Target.screen ⟨0, ⟨⟨0, 0⟩, ⟨16, 16⟩⟩⟩ x y red],
          ⟨[(2, ⟨0, ⟨⟨0, 0⟩, ⟨16, 16⟩⟩⟩)], [2]⟩⟩ ∧
      x = 2 ∧ y = -2 ∧ centredAsSpecified 0 21 16 x ∧ centredAsSpecified 0 11 16 y := by
  refine ⟨by decide, rfl, rfl, ?_⟩
  obtain ⟨x, y, e, hx, hy, cx, cy⟩ :=
    icon_centering sampleConsts sampleAssets sampleScreen (by decide)
      ⟨Target.screen, [], IconStore.empty⟩
      (iconCmd sampleConsts 2 ⟨⟨0, 0⟩, ⟨21, 11⟩⟩ red)
      ⟨0, ⟨⟨0, 0⟩, ⟨16, 16⟩⟩⟩ ⟨[(2, ⟨0, ⟨⟨0, 0⟩, ⟨16, 16⟩⟩⟩)], [2]⟩ rfl rfl
  refine ⟨x, y, e, ?_, ?_, ?_, ?_⟩
  · rw [hx]; decide
  · rw [hy]; decide
  · exact cx (by decide) (by decide) (by decide) (by decide)
  · exact cy (by decide) (by decide) (by decide) (by decide)


/-- C9, the claim as stated fails. The draw call of `Rect({16777217, 0, 16777218, 3})` has
position `(16777216, 0)`: the engine takes `float32` arguments, and `float32(16777217)` is
`16777216`. -/
theorem draw_call_sequence_counterexample :
    Context.Draw sampleConsts sampleAssets
      ⟨[rectCmd sampleConsts ⟨⟨16777217, 0⟩, ⟨16777218, 3⟩⟩ red]⟩
      sampleScreen IconStore.empty =
      some ⟨Target.screen,
        [DrawCall.filledRect Target.screen 16777216 0 1 3 red false], IconStore.empty⟩ ∧
    ¬ rectCallAsSpecified (rectCmd sampleConsts ⟨⟨16777217, 0⟩, ⟨16777218, 3⟩⟩ red)
      (DrawCall.filledRect Target.screen 16777216 0 1 3 red false) := by
  refine ⟨by decide, ?_⟩
  rintro ⟨dst, h⟩
  simp [rectCmd] at h

/-- C9, amended. Draw-call sequence: `Draw` never fails, and the draw calls it emits
correspond one to one and in list order to the Rect, Text and recognized-Icon commands of
the command list: each draw call carries the colour of its command, and the call of a
Rect command has position `(float32(Min.X), float32(Min.Y))`, size
`(float32(Dx), float32(Dy))` and anti-aliasing off; for coordinates of magnitude at most
`2^23` the position is `(Min.X, Min.Y)` and the size is `(Max.X - Min.X, Max.Y - Min.Y)`.
Clip commands, unrecognized-Icon commands and commands of another kind emit no draw
call. -/
theorem draw_call_sequence (K : Consts) (assets : String → Option (Int × Int))
    (screen : Image) (st : IconStore) (hK : K.kindsDistinct) (hA : assetsOK assets)
    (hst : Reachable K assets st) (cmds : List command) :
    (∃ s, Context.Draw K assets ⟨cmds⟩ screen st = some s ∧
      List.Forall₂ (callOf K) (cmds.filter (emitsCall K)) s.calls) ∧
    (∀ r : Rectangle, coord32OK r.Min.X → coord32OK r.Max.X → coord32OK r.Min.Y →
      coord32OK r.Max.Y →
      float32OfInt r.Min.X = r.Min.X ∧ float32OfInt r.Min.Y = r.Min.Y ∧
      float32OfInt r.Dx = r.Max.X - r.Min.X ∧ float32OfInt r.Dy = r.Max.Y - r.Min.Y) := by
  obtain ⟨h12, h13, h14, h23, h24, h34⟩ := kinds_ne K hK
  have step : ∀ (s : DrawState) (cmd : command), s.store.keysKnown K →
      ∃ s1 new, drawCommand K assets screen s cmd = some s1 ∧
        s1.calls = s.calls ++ new ∧
        List.Forall₂ (callOf K) ([cmd].filter (emitsCall K)) new := by
    intro s cmd hs
    by_cases c1 : cmd.typ = K.CommandRect
    · refine ⟨_, [DrawCall.filledRect s.target
        (float32OfInt cmd.rect.rect.Min.X) (float32OfInt cmd.rect.rect.Min.Y)
        (float32OfInt cmd.rect.rect.Dx) (float32OfInt cmd.rect.rect.Dy) cmd.rect.color false],
        drawCommand_rect K assets screen s cmd c1, rfl, ?_⟩
      have he : emitsCall K cmd = true := by simp [emitsCall, c1]
      simp only [List.filter_cons, he, if_true, List.filter_nil]
      refine List.Forall₂.cons ⟨fun _ => ⟨_, rfl⟩, fun h => ?_, fun h => ?_⟩ List.Forall₂.nil
      · exact absurd (c1.symm.trans h) h12
      · exact absurd (c1.symm.trans h) h13
    · by_cases c2 : cmd.typ = K.CommandText
      · refine ⟨_, [DrawCall.text s.target cmd.text.str (float64OfInt cmd.text.pos.X)
          (float64OfInt cmd.text.pos.Y) cmd.text.color], drawCommand_text K assets screen hK s cmd c2, rfl, ?_⟩
        have he : emitsCall K cmd = true := by simp [emitsCall, c2]
        simp only [List.filter_cons, he, if_true, List.filter_nil]
        refine List.Forall₂.cons ⟨fun h => absurd h c1, fun _ => ⟨_, rfl⟩, fun h => ?_⟩
          List.Forall₂.nil
        exact absurd (c2.symm.trans h) h23
      · by_cases c3 : cmd.typ = K.CommandIcon
        · cases hn : iconName K cmd.icon.icon with
          | none =>
            have he : emitsCall K cmd = false := by simp [emitsCall, c1, c2, hn]
            refine ⟨s, [], ?_, by simp, ?_⟩
            · rw [drawCommand_icon K assets screen hK s cmd c3,
                iconImage_unknown K assets s.store cmd.icon.icon hs hn]
            · simp only [List.filter_cons, he, List.filter_nil]
              exact List.Forall₂.nil
          | some name =>
            obtain ⟨img, st1, e, -⟩ :=
              iconImage_known K assets hA s.store cmd.icon.icon name hn
            have he : emitsCall K cmd = true := by simp [emitsCall, c3, hn]
            refine ⟨⟨s.target, s.calls ++ [DrawCall.image Target.screen img
                (float64OfInt (iconOffset cmd.icon.rect.Min.X cmd.icon.rect.Dx img.bounds.Dx))
                (float64OfInt (iconOffset cmd.icon.rect.Min.Y cmd.icon.rect.Dy img.bounds.Dy))
                cmd.icon.color], st1⟩, [DrawCall.image Target.screen img
                (float64OfInt (iconOffset cmd.icon.rect.Min.X cmd.icon.rect.Dx img.bounds.Dx))
                (float64OfInt (iconOffset cmd.icon.rect.Min.Y cmd.icon.rect.Dy img.bounds.Dy))
                cmd.icon.color], ?_, rfl, ?_⟩
            · rw [drawCommand_icon K assets screen hK s cmd c3, e]
            · simp only [List.filter_cons, he, if_true, List.filter_nil]
              exact List.Forall₂.cons
                ⟨fun h => absurd h c1, fun h => absurd h c2, fun _ => ⟨_, _, _, rfl⟩⟩
                List.Forall₂.nil
        · have he : emitsCall K cmd = false := by simp [emitsCall, c1, c2, c3]
          have hd : ∃ s1, drawCommand K assets screen s cmd = some s1 ∧
              s1.calls = s.calls := by
            by_cases c4 : cmd.typ = K.CommandClip
            · exact ⟨_, drawCommand_clip K assets screen hK s cmd c4, rfl⟩
            · exact ⟨_, drawCommand_other K assets screen s cmd c1 c2 c3 c4, rfl⟩
          obtain ⟨s1, e, hcalls⟩ := hd
          refine ⟨s1, [], e, by simp [hcalls], ?_⟩
          simp only [List.filter_cons, he, List.filter_nil]
          exact List.Forall₂.nil
  have loop : ∀ (l : List command) (s : DrawState), s.store.keysKnown K →
      ∃ s1 new, drawLoop K assets screen s l = some s1 ∧ s1.calls = s.calls ++ new ∧
        List.Forall₂ (callOf K) (l.filter (emitsCall K)) new := by
    intro l
    induction l with
    | nil =>
      intro s _
      exact ⟨s, [], rfl, by simp, by simp⟩
    | cons cmd rest ih =>
      intro s hs
      obtain ⟨s1, new1, e1, c1, f1⟩ := step s cmd hs
      obtain ⟨s2, new2, e2, c2, f2⟩ :=
        ih s1 (drawCommand_keysKnown K assets screen s s1 cmd hs e1)
      refine ⟨s2, new1 ++ new2, ?_, ?_, ?_⟩
      · simp only [drawLoop, e1]; exact e2
      · rw [c2, c1, List.append_assoc]
      · have hsplit : (cmd :: rest).filter (emitsCall K) =
            [cmd].filter (emitsCall K) ++ rest.filter (emitsCall K) := by
          rw [← List.filter_append]; rfl
        rw [hsplit]
        exact List.rel_append f1 f2
  refine ⟨?_, ?_⟩
  · obtain ⟨s1, new, e, c, f⟩ :=
      loop cmds ⟨Target.screen, [], st⟩ (reachable_keysKnown K assets st hst)
    refine ⟨s1, e, ?_⟩
    rw [c]
    simpa using f
  · intro r h1 h2 h3 h4
    unfold coord32OK at h1 h2 h3 h4
    have ex : r.Dx = r.Max.X - r.Min.X := wrapInt_of_small _ (by omega) (by omega)
    have ey : r.Dy = r.Max.Y - r.Min.Y := wrapInt_of_small _ (by omega) (by omega)
    rw [ex, ey]
    exact ⟨float32OfInt_exact _ (by omega) (by omega),
      float32OfInt_exact _ (by omega) (by omega),
      float32OfInt_exact _ (by omega) (by omega),
      float32OfInt_exact _ (by omega) (by omega)⟩

theorem draw_call_sequence_witness :
    sampleConsts.kindsDistinct ∧ assetsOK sampleAssets ∧
    Reachable sampleConsts sampleAssets IconStore.empty ∧
    ∃ s, Context.Draw sampleConsts sampleAssets
        ⟨[clipCmd sampleConsts ⟨⟨0, 0⟩, ⟨100, 50⟩⟩,
          iconCmd sampleConsts 99 ⟨⟨0, 0⟩, ⟨20, 20⟩⟩ black,
          rectCmd sampleConsts ⟨⟨10, 10⟩, ⟨20, 20⟩⟩ red,
          iconCmd sampleConsts 1 ⟨⟨0, 0⟩, ⟨20, 20⟩⟩ red,
          textCmd sampleConsts "hi" ⟨5, 5⟩ black]⟩ sampleScreen IconStore.empty = some s ∧
      List.Forall₂ (callOf sampleConsts)
        [rectCmd sampleConsts ⟨⟨10, 10⟩, ⟨20, 20⟩⟩ red,
          iconCmd sampleConsts 1 ⟨⟨0, 0⟩, ⟨20, 20⟩⟩ red,
          textCmd sampleConsts "hi" ⟨5, 5⟩ black] s.calls :=
  ⟨by decide, sampleAssets_ok, ⟨[], rfl⟩,
    (draw_call_sequence sampleConsts sampleAssets sampleScreen IconStore.empty (by decide)
      sampleAssets_ok ⟨[], rfl⟩ _).1⟩

/-! ## Claims on the input translator, continued -/

/-- C10. Event order per frame: the events `updateInput` forwards, mapped to their places,
form a subsequence of the fixed order [pointer-move, scroll, text-input, left button,
right button, Alt, Backspace, Control, Enter, Shift]; the first event is always the
pointer-move event with the sampled coordinates, and it is the only one; a text-input event
is present if and only if the typed-character batch is non-empty, and then it is a single
event carrying the whole batch in its order; so between 1 and 10 events are forwarded. -/
theorem event_order (F : FloatEnv) (s : InputSample) :
    List.Sublist ((updateInput F s).map Event.slot) slotOrder ∧
    (∃ rest, updateInput F s = Event.mouseMove s.cursorX s.cursorY :: rest ∧
      ∀ e ∈ rest, e.slot ≠ Slot.pointerMove) ∧
    ((updateInput F s).filter isText =
      if s.chars = [] then [] else [Event.text s.chars]) ∧
    ((∃ cs, Event.text cs ∈ updateInput F s) ↔ s.chars ≠ []) ∧
    1 ≤ (updateInput F s).length ∧ (updateInput F s).length ≤ 10 := by
  have h1 : List.Sublist ((scrollEvents F s).map Event.slot) [Slot.scroll] := by
    unfold scrollEvents; split_ifs <;> simp [Event.slot]
  have h2 : List.Sublist ((textEvents s).map Event.slot) [Slot.textInput] := by
    unfold textEvents; split_ifs <;> simp [Event.slot]
  have h3 : List.Sublist ((buttonEvents s MouseButton.Left).map Event.slot)
      [Slot.leftButton] := by
    unfold buttonEvents; split_ifs <;> simp [Event.slot]
  have h4 : List.Sublist ((buttonEvents s MouseButton.Right).map Event.slot)
      [Slot.rightButton] := by
    unfold buttonEvents; split_ifs <;> simp [Event.slot]
  have h5 : List.Sublist ((keyEvents s Key.Alt).map Event.slot) [Slot.alt] := by
    unfold keyEvents; split_ifs <;> simp [Event.slot]
  have h6 : List.Sublist ((keyEvents s Key.Backspace).map Event.slot) [Slot.backspace] := by
    unfold keyEvents; split_ifs <;> simp [Event.slot]
  have h7 : List.Sublist ((keyEvents s Key.Control).map Event.slot) [Slot.control] := by
    unfold keyEvents; split_ifs <;> simp [Event.slot]
  have h8 : List.Sublist ((keyEvents s Key.Enter).map Event.slot) [Slot.enter] := by
    unfold keyEvents; split_ifs <;> simp [Event.slot]
  have h9 : List.Sublist ((keyEvents s Key.Shift).map Event.slot) [Slot.shift] := by
    unfold keyEvents; split_ifs <;> simp [Event.slot]
  have hsub : List.Sublist ((updateInput F s).map Event.slot) slotOrder := by
    rw [updateInput_eq]
    simp only [List.map_append]
    have h0 : List.Sublist ([Event.mouseMove s.cursorX s.cursorY].map Event.slot)
        [Slot.pointerMove] := by simp [Event.slot]
    exact ((((((((h0.append h1).append h2).append h3).append h4).append h5).append
      h6).append h7).append h8).append h9
  have htext := filter_text_events F s
  refine ⟨hsub, ?_, htext, ?_, ?_, ?_⟩
  · refine ⟨scrollEvents F s ++ textEvents s ++
        buttonEvents s MouseButton.Left ++ buttonEvents s MouseButton.Right ++
        keyEvents s Key.Alt ++ keyEvents s Key.Backspace ++ keyEvents s Key.Control ++
        keyEvents s Key.Enter ++ keyEvents s Key.Shift, ?_, ?_⟩
    · rw [updateInput_eq]; simp
    · intro e he
      have hsub2 : List.Sublist ((scrollEvents F s ++ textEvents s ++
          buttonEvents s MouseButton.Left ++ buttonEvents s MouseButton.Right ++
          keyEvents s Key.Alt ++ keyEvents s Key.Backspace ++ keyEvents s Key.Control ++
          keyEvents s Key.Enter ++ keyEvents s Key.Shift).map Event.slot)
          [Slot.scroll, Slot.textInput, Slot.leftButton, Slot.rightButton,
            Slot.alt, Slot.backspace, Slot.control, Slot.enter, Slot.shift] := by
        simp only [List.map_append]
        exact (((((((h1.append h2).append h3).append h4).append h5).append
          h6).append h7).append h8).append h9
      have hmem := hsub2.subset (List.mem_map_of_mem Event.slot he)
      intro hc
      rw [hc] at hmem
      simp at hmem
  · constructor
    · rintro ⟨cs, hm⟩ hc
      have hm2 : Event.text cs ∈ (updateInput F s).filter isText :=
        List.mem_filter.mpr ⟨hm, rfl⟩
      rw [htext] at hm2
      simp [textEvents, hc] at hm2
    · intro hc
      have hm : Event.text s.chars ∈ (updateInput F s).filter isText := by
        rw [htext]; simp [textEvents, hc]
      exact ⟨_, (List.mem_filter.mp hm).1⟩
  · rw [updateInput_eq]; simp
  · have := hsub.length_le
    simpa [slotOrder] using this

end Microui
